import Mathlib

/-!
A verification development for the `sks_spider` keyserver spider and its
valid-IP selection endpoint.

The program is embedded shallowly:

* `spider.go` is modelled as a state machine.  The Go maps become total
  functions into `Option`, Go `map[string]bool` sets become `String → Bool`,
  and each event-loop message kind becomes a constructor of `SpiderMsg`.
  The event loop (`spiderMainLoop`) becomes a step function `spiderStep`;
  note that in Go a plain `break` inside a `select` terminates the `select`
  statement itself, not the enclosing `for`, so the `terminate` case of the
  loop is a state-preserving step after which the loop keeps receiving.
  Goroutine spawns (`net.LookupHost`, `QueryHost`, `QueryCountryForIP`) are
  recorded in append-only ghost logs (`dnsLog`, `probeLog`, `countryLog`);
  these logs mirror the `go ...` statements and are read by no modelled code.
  A message can be delivered only if a matching worker was spawned
  (`msgOK`), exactly as results can only arrive on the shared channels from
  spawned workers.  `SpiderReach` is the set of states the event loop can be
  in after processing any valid message sequence.

* `http_ip_valid.go` (`apiIpValidPage`) is modelled as a pure function from
  a published snapshot and decoded query to a `SelResult`.  Go `float64`
  arithmetic is idealized as exact rational arithmetic over `GoReal`
  (an unreduced numerator/denominator pair, kept executable so concrete
  runs evaluate inside the kernel); `math.Sqrt` becomes an exact square
  root on perfect squares (`natSqrt`, floor square root otherwise), and
  Go's float-to-int conversion becomes truncation toward zero
  (`GoReal.trunc`, via `Int.tdiv`).  Go map iteration order is unspecified;
  all iterations here are performed in first-insertion order (which, with
  exact arithmetic, is observationally irrelevant for the sums, sets and
  sorts involved) except the one place where order is observable: the
  largest-bucket scan, which receives the iteration order as an explicit
  `order : List Int` parameter.

Identifiers that live in files of the repository outside the two sources
(`BlacklistedHosts`, `blacklistedQueryHosts`, `net.ParseIP` viewed as a
predicate, `IPDisallowed`, the flag constants `kBUCKET_SIZE`,
`flKeysSanityMin`, `flKeysDailyJitter`, `SksVersion.IsAtLeast`,
`serverHeadersNative` normalization, `CountrySet.HasCountry`) are taken as
parameters (`SpiderConfig`, `SelConfig`), so every theorem quantifies over
their possible behaviours.  The `SksNode` record carries exactly the fields
the two sources read.  Logging, the stats text, HTTP encoding and the
response timestamp are not modelled.
-/

/-! ## Small executable helpers -/

/-- Linear-search square root: largest `r` with `r * r ≤ n`, computed with
explicit fuel so that the kernel can evaluate it. -/
def sqrtGo (n : Nat) : Nat → Nat → Nat
  | 0, r => r
  | fuel + 1, r => if (r + 1) * (r + 1) ≤ n then sqrtGo n fuel (r + 1) else r

/-- Floor square root of a natural number (exact on perfect squares). -/
def natSqrt (n : Nat) : Nat := sqrtGo n n 0

/-- Character-list version of Go `strings.HasPrefix`. -/
def chrPre : List Char → List Char → Bool
  | [], _ => true
  | _ :: _, [] => false
  | a :: as, b :: bs => a == b && chrPre as bs

/-- Character-list version of Go `strings.Contains`. -/
def chrSub (pat : List Char) : List Char → Bool
  | [] => pat.isEmpty
  | b :: bs => chrPre pat (b :: bs) || chrSub pat bs

/-- Go `strings.Contains(s, pat)`. -/
def strHasSub (s pat : String) : Bool := chrSub pat.data s.data

/-- Go `strings.HasSuffix(s, pat)`. -/
def strEndsIn (s pat : String) : Bool := chrPre pat.data.reverse s.data.reverse

/-- Membership update on a `map[string]V`-style total function. -/
def upd {β : Type} (m : String → Option β) (k : String) (v : β) : String → Option β :=
  fun x => if x = k then some v else m x

/-- Go `delete(m, k)`. -/
def del {β : Type} (m : String → Option β) (k : String) : String → Option β :=
  fun x => if x = k then none else m x

/-- Insertion into a `map[string]bool` used as a set. -/
def setAdd (s : String → Bool) (k : String) : String → Bool :=
  fun x => if x = k then true else s x

/-- Increment/decrement of an int-valued Go map entry (absent keys read 0). -/
def bump (m : String → Int) (k : String) (delta : Int) : String → Int :=
  fun x => if x = k then m x + delta else m x

/-! ## The data carried by a probe result

`SksNode` (defined in the repository outside these two files) is modelled
with exactly the fields `spider.go` and `http_ip_valid.go` read:
`Settings` (the status-page key/value map, read at keys `"Hostname"` and
`"Nodename"`), `GossipPeerList`, `Keycount`, `Version`, `ViaHeader`,
`ServerHeader` and `IpList`. -/

structure SksNode where
  Hostname : String
  Settings : List (String × String)
  GossipPeerList : List String
  Keycount : Int
  Version : String
  ViaHeader : String
  ServerHeader : String
  IpList : List String
deriving DecidableEq, Repr

/-- Lookup in the `Settings` map (Go two-value map read). -/
def settingsGet (s : List (String × String)) (k : String) : Option String :=
  match s with
  | [] => none
  | (k2, v) :: rest => if k2 = k then some v else settingsGet rest k

/-! ## Spider messages (the payloads of the owned channels) -/

structure DnsResult where
  hostname : String
  ipList : List String
  err : Option String
deriving DecidableEq, Repr

structure HostsRequest where
  hostnames : List String
  distance : Int
  origin : String
deriving DecidableEq, Repr

structure HostResult where
  hostname : String
  node : Option SksNode
  err : Option String
deriving DecidableEq, Repr

structure CountryResult where
  ip : String
  country : String
  err : Option String
deriving DecidableEq, Repr

inductive SpiderMsg where
  | batchAdd (req : HostsRequest)
  | dnsRes (r : DnsResult)
  | hostRes (r : HostResult)
  | countryRes (r : CountryResult)
  | terminate
deriving DecidableEq, Repr

/-- The statically configured data `considerHost` and `processDnsResult`
consult, defined in repository files outside `src/`: the host blacklist
map, the `blacklistedQueryHosts` slice, `net.ParseIP(h) != nil`, and
`IPDisallowed`. -/
structure SpiderConfig where
  blacklistedHosts : String → Bool
  blacklistedQueryHosts : List String
  parsesAsIP : String → Bool
  ipDisallowed : String → Bool

/-- The mutable state owned by the spider event loop, plus the ghost spawn
logs (`dnsLog`, `probeLog`, `countryLog` record the arguments of every
`go`-spawned DNS lookup, host probe and country lookup, in order). -/
structure SpiderState where
  considering : String → Bool
  badDNS : String → Bool
  knownHosts : String → Option String
  aliasesForHost : String → Option (List String)
  knownIPs : String → Option String
  ipsForHost : String → Option (List String)
  serverInfos : String → Option (Option SksNode)
  queryErrors : String → Option String
  pendingHosts : String → Int
  pendingCountries : String → Int
  distances : String → Option Int
  countriesForIPs : String → Option String
  dnsLog : List String
  probeLog : List String
  countryLog : List String

/-- The state `StartSpider` creates: all maps empty. -/
def initialSpider : SpiderState where
  considering := fun _ => false
  badDNS := fun _ => false
  knownHosts := fun _ => none
  aliasesForHost := fun _ => none
  knownIPs := fun _ => none
  ipsForHost := fun _ => none
  serverInfos := fun _ => none
  queryErrors := fun _ => none
  pendingHosts := fun _ => 0
  pendingCountries := fun _ => 0
  distances := fun _ => none
  countriesForIPs := fun _ => none
  dnsLog := []
  probeLog := []
  countryLog := []

/-! ## `considerHost` -/

/-- The effective distance `considerHost` computes for a hostname: `d + 1`
if the request has a known origin, else the request's own distance. -/
def considerDistance (st : SpiderState) (req : HostsRequest) : Int :=
  let d1 : Int :=
    if req.origin ≠ "" then
      match st.distances req.origin with
      | some d => d + 1
      | none => -1
    else -1
  if d1 < 0 then req.distance else d1

/-- The skip condition of `considerHost`: the `if/else if` chain collapsed
to a disjunction (each test is pure, and the chain only ever sets
`skip = true`). -/
def considerSkip (cfg : SpiderConfig) (st : SpiderState) (hostname : String) : Bool :=
  st.considering hostname || cfg.blacklistedHosts hostname || st.badDNS hostname ||
    (st.knownHosts hostname).isSome || cfg.parsesAsIP hostname ||
    !(hostname.data.contains '.') || strHasSub hostname "pool." ||
    strEndsIn hostname ".local" || cfg.blacklistedQueryHosts.contains hostname

/-- The distance-promotion prologue of `considerHost`: an already recorded
larger distance is lowered to the newly computed one. -/
def considerPromote (st : SpiderState) (hostname : String) (distance : Int) :
    SpiderState :=
  match st.distances hostname with
  | some old =>
      if old > distance then
        { st with distances := upd st.distances hostname distance }
      else st
  | none => st

/-- `Spider.considerHost`.  The distance promotion happens before the skip
checks; a skipped host only loses a pending count, an accepted host enters
`considering`, gets its distance recorded and has one DNS worker spawned
(ghost-logged in `dnsLog`). -/
def considerHost (cfg : SpiderConfig) (st : SpiderState) (hostname : String)
    (req : HostsRequest) : SpiderState :=
  let distance := considerDistance st req
  let st1 := considerPromote st hostname distance
  if considerSkip cfg st1 hostname then
    { st1 with pendingHosts := bump st1.pendingHosts hostname (-1) }
  else
    { st1 with
      considering := setAdd st1.considering hostname
      distances := upd st1.distances hostname distance
      dnsLog := st1.dnsLog ++ [hostname] }

/-! ## `processDnsResult` -/

/-- `flattenIPs`: concatenate the lists, keeping only the first occurrence
of each IP (order preserving). -/
def flattenIPs (ipLists : List (List String)) : List String :=
  ipLists.flatten.foldl (fun acc ip => if acc.contains ip then acc else acc ++ [ip]) []

/-- The branch of `processDnsResult` taken when some deduplicated IP is
already in `knownIPs` (owned by canonical host `canonical`): record the
alias and fold the IPs in.  Note no `aliasesForHost` update happens. -/
def dnsAliasMerge (st : SpiderState) (hostname canonical : String)
    (ipList : List String) : SpiderState :=
  let st1 := { st with knownHosts := upd st.knownHosts hostname canonical }
  let st2 := { st1 with
    knownIPs := ipList.foldl (fun m ip2 => upd m ip2 canonical) st1.knownIPs }
  { st2 with
    ipsForHost :=
      upd st2.ipsForHost canonical
        (flattenIPs [(st2.ipsForHost canonical).getD [], ipList]) }

/-- The "shiny new host" tail of `processDnsResult`: register the maps, and
for each IP not yet in `countriesForIPs` insert the empty-string
placeholder and spawn a country lookup; finally store a nil `serverInfos`
entry and spawn the probe. -/
def dnsFreshStep (hostname : String) (s : SpiderState) (ip : String) : SpiderState :=
  let s1 := { s with knownIPs := upd s.knownIPs ip hostname }
  if (s1.countriesForIPs ip).isNone then
    { s1 with
      countriesForIPs := upd s1.countriesForIPs ip ""
      pendingCountries := bump s1.pendingCountries ip 1
      countryLog := s1.countryLog ++ [ip] }
  else s1

def dnsFreshHost (st : SpiderState) (hostname : String) (ipList : List String) :
    SpiderState :=
  let st1 := { st with
    knownHosts := upd st.knownHosts hostname hostname
    aliasesForHost := upd st.aliasesForHost hostname [hostname]
    ipsForHost := upd st.ipsForHost hostname ipList }
  let st2 := ipList.foldl (dnsFreshStep hostname) st1
  { st2 with
    serverInfos := upd st2.serverInfos hostname none
    pendingHosts := bump st2.pendingHosts hostname 1
    probeLog := st2.probeLog ++ [hostname] }

/-- The per-IP scan of `processDnsResult`: the first IP that is disallowed
sends the hostname to `badDNS`; failing that, the first IP already in
`knownIPs` triggers the alias merge; if the scan falls through, the host is
fresh.  `ipList` is the full deduplicated list, `scan` its unscanned tail. -/
def dnsScan (cfg : SpiderConfig) (st : SpiderState) (hostname : String)
    (ipList : List String) : List String → SpiderState
  | [] => dnsFreshHost st hostname ipList
  | ip :: rest =>
    if cfg.ipDisallowed ip then { st with badDNS := setAdd st.badDNS hostname }
    else
      match st.knownIPs ip with
      | some canonical => dnsAliasMerge st hostname canonical ipList
      | none => dnsScan cfg st hostname ipList rest

/-- `Spider.processDnsResult`. -/
def processDnsResult (cfg : SpiderConfig) (st : SpiderState) (dns : DnsResult) :
    SpiderState :=
  if dns.err.isSome then { st with badDNS := setAdd st.badDNS dns.hostname }
  else dnsScan cfg st dns.hostname (flattenIPs [dns.ipList]) (flattenIPs [dns.ipList])

/-! ## `processHostResult` -/

/-- The rename block of `processHostResult`, entered when the node's
self-reported `Hostname` setting `canonical` differs from the queried
`hostname`: move the `hostname`-keyed entries under `canonical`. -/
def hostRename (st : SpiderState) (hostname canonical : String) : SpiderState :=
  let st1 := { st with serverInfos := del st.serverInfos hostname }
  let st2 :=
    if (st1.knownHosts canonical).isNone then
      { st1 with knownHosts := upd st1.knownHosts canonical canonical }
    else st1
  let st3 := { st2 with
    knownHosts :=
      ((st2.aliasesForHost hostname).getD []).foldl
        (fun m al => upd m al canonical) st2.knownHosts }
  let st4 := { st3 with
    aliasesForHost :=
      upd st3.aliasesForHost canonical
        (((st3.aliasesForHost hostname).getD []) ++ [canonical]) }
  let st5 := { st4 with
    knownIPs :=
      ((st4.ipsForHost hostname).getD []).foldl
        (fun m ip => upd m ip canonical) st4.knownIPs }
  let st6 :=
    if (st5.ipsForHost canonical).isNone then
      { st5 with
        ipsForHost :=
          del (upd st5.ipsForHost canonical ((st5.ipsForHost hostname).getD [])) hostname }
    else
      { st5 with
        ipsForHost :=
          upd st5.ipsForHost canonical
            (flattenIPs [(st5.ipsForHost canonical).getD [],
                         (st5.ipsForHost hostname).getD []]) }
  let st7 := { st6 with aliasesForHost := del st6.aliasesForHost hostname }
  match st7.distances canonical with
  | none =>
      { st7 with
        distances := upd st7.distances canonical ((st7.distances hostname).getD 0) }
  | some old =>
      if old < (st7.distances hostname).getD 0 then
        { st7 with
          distances := upd st7.distances canonical ((st7.distances hostname).getD 0) }
      else st7

/-- The error-free part of `processHostResult` (`hr.err == nil`, node
present). -/
def processHostOk (st : SpiderState) (hostname : String) (node : SksNode) :
    SpiderState :=
  let ownHostname := settingsGet node.Settings "Hostname"
  let canonical : String :=
    match ownHostname with
    | some oh => if oh = hostname then hostname else oh
    | none => hostname
  let st1 :=
    match ownHostname with
    | some oh => if oh = hostname then st else hostRename st hostname oh
    | none => st
  let st2 :=
    match settingsGet node.Settings "Nodename" with
    | some nn =>
        if nn ≠ canonical ∧ nn ≠ ownHostname.getD "" then
          if (st1.knownHosts nn).isNone then
            { st1 with knownHosts := upd st1.knownHosts nn canonical }
          else st1
        else st1
    | none => st1
  let st3 := { st2 with serverInfos := upd st2.serverInfos canonical (some node) }
  -- the inline BatchAddHost(canonical, GossipPeerList): the caller-context
  -- pending bump happens here, in the event loop; the request itself goes
  -- out on the batchAddHost channel and is processed as a later message.
  { st3 with
    pendingHosts := node.GossipPeerList.foldl (fun m h => bump m h 1) st3.pendingHosts }

/-- `Spider.processHostResult`.  A result carrying an error (including the
analyze-panic case, where a node is also present) only records the error.
A nil node without an error never arrives (`QueryHost` always sends one);
such a message is mapped to the identity. -/
def processHostResult (st : SpiderState) (hr : HostResult) : SpiderState :=
  match hr.err with
  | some e => { st with queryErrors := upd st.queryErrors hr.hostname e }
  | none =>
    match hr.node with
    | none => st
    | some node => processHostOk st hr.hostname node

/-! ## `processCountryResult` and the event loop -/

/-- `Spider.processCountryResult`: only an error-free result writes the
country; an errored result changes nothing. -/
def processCountryResult (st : SpiderState) (cr : CountryResult) : SpiderState :=
  match cr.err with
  | none => { st with countriesForIPs := upd st.countriesForIPs cr.ip cr.country }
  | some _ => st

/-- One iteration of `spiderMainLoop`.  The `terminate` case executes a Go
`break`, which terminates the innermost `for`/`select`/`switch`; here that
is the `select`, so the iteration ends with the state unchanged and the
loop goes on receiving. -/
def spiderStep (cfg : SpiderConfig) (st : SpiderState) : SpiderMsg → SpiderState
  | .batchAdd req => req.hostnames.foldl (fun s h => considerHost cfg s h req) st
  | .dnsRes r =>
      let s := processDnsResult cfg st r
      { s with pendingHosts := bump s.pendingHosts r.hostname (-1) }
  | .hostRes r =>
      let s := processHostResult st r
      { s with pendingHosts := bump s.pendingHosts r.hostname (-1) }
  | .countryRes r =>
      let s := processCountryResult st r
      { s with pendingCountries := bump s.pendingCountries r.ip (-1) }
  | .terminate => st

/-- The event loop over a queue of messages. -/
def runSpider (cfg : SpiderConfig) (st : SpiderState) (msgs : List SpiderMsg) :
    SpiderState :=
  msgs.foldl (spiderStep cfg) st

/-- Which messages can actually arrive: result messages only come from
workers the spider spawned (the ghost logs), and `QueryHost` always sends a
node when it sends no error; `batchAdd` and `terminate` come from the
public API. -/
def msgOK (st : SpiderState) : SpiderMsg → Bool
  | .batchAdd _ => true
  | .dnsRes r => st.dnsLog.contains r.hostname
  | .hostRes r => st.probeLog.contains r.hostname && (r.err.isSome || r.node.isSome)
  | .countryRes r => st.countryLog.contains r.ip
  | .terminate => true

/-- States the event loop can reach by processing valid messages. -/
inductive SpiderReach (cfg : SpiderConfig) : SpiderState → Prop where
  | init : SpiderReach cfg initialSpider
  | step (st : SpiderState) (msg : SpiderMsg) (h : SpiderReach cfg st)
      (hok : msgOK st msg = true) : SpiderReach cfg (spiderStep cfg st msg)

/-! ## Exact model of the selector's float64 arithmetic -/

/-- An exact rational value (numerator over natural denominator, never
normalized), modelling the `float64` values `apiIpValidPage` computes.
Denominators stay positive along every computation the selector performs. -/
structure GoReal where
  n : Int
  d : Nat
deriving DecidableEq, Repr

def GoReal.ofInt (i : Int) : GoReal := ⟨i, 1⟩

def GoReal.add (x y : GoReal) : GoReal := ⟨x.n * y.d + y.n * x.d, x.d * y.d⟩

def GoReal.sub (x y : GoReal) : GoReal := ⟨x.n * y.d - y.n * x.d, x.d * y.d⟩

def GoReal.mul (x y : GoReal) : GoReal := ⟨x.n * y.n, x.d * y.d⟩

/-- `x < y` on exact values (cross-multiplied; denominators positive). -/
def GoReal.ltb (x y : GoReal) : Bool := decide (x.n * y.d < y.n * x.d)

/-- Go `int(x)`: truncation toward zero. -/
def GoReal.trunc (x : GoReal) : Int := x.n.tdiv x.d

/-- `math.Sqrt`, exact on perfect squares (all radicands arising in the
concrete evaluations of this file are perfect squares), floor square root
otherwise. -/
def GoReal.sqrt (x : GoReal) : GoReal := ⟨(natSqrt (x.n.toNat * x.d) : Int), x.d⟩

/-! ## Association lists (Go maps iterated in first-insertion order) -/

def alGet {α β : Type} [DecidableEq α] (m : List (α × β)) (k : α) : Option β :=
  match m with
  | [] => none
  | (k2, v) :: rest => if k2 = k then some v else alGet rest k

/-- `m[k] = v` (map assignment: overwrite in place or append). -/
def alSet {α β : Type} [DecidableEq α] (m : List (α × β)) (k : α) (v : β) :
    List (α × β) :=
  match m with
  | [] => [(k, v)]
  | (k2, v2) :: rest => if k2 = k then (k2, v) :: rest else (k2, v2) :: alSet rest k v

/-- `m[k] = append(m[k], v)` on an int-list-valued map. -/
def alApp (m : List (Int × List Int)) (k : Int) (v : Int) : List (Int × List Int) :=
  match m with
  | [] => [(k, [v])]
  | (k2, l) :: rest => if k2 = k then (k2, l ++ [v]) :: rest else (k2, l) :: alApp rest k v

def alKeys {α β : Type} (m : List (α × β)) : List α := m.map (fun kv => kv.1)

/-- `btree.SortedSet.Insert` on the exclusion sets (membership only). -/
def setIns (s : List String) (x : String) : List String :=
  if s.contains x then s else s ++ [x]

/-! ## The snapshot and the decoded query -/

/-- The published snapshot `GetCurrentPersisted` returns (host map as an
association list, the sorted name list the eligibility pass iterates, and
the IP-to-country map). -/
structure PersistedState where
  HostMap : List (String × SksNode)
  Sorted : List String
  IPCountryMap : String → Option String

/-- A decoded request: `proxies`, `countries`, `minimum_version` (already
parsed; `none` when absent or unparsable) and a positive `threshold`
override candidate. -/
structure Query where
  limitToProxies : Bool
  limitToCountries : Option (List String)
  minimumVersion : Option String
  thresholdOverride : Option Int
deriving DecidableEq, Repr

/-- Selector-side configuration living outside the two source files: the
`kBUCKET_SIZE`, `flKeysSanityMin` and `flKeysDailyJitter` constants, the
version comparison `NewSksVersion(v) != nil && IsAtLeast(min)`, the
lowercased-first-token membership test against `serverHeadersNative`, and
`CountrySet.HasCountry`. -/
structure SelConfig where
  bucketSize : Int
  keysSanityMin : Int
  keysDailyJitter : Int
  versionAtLeast : String → String → Bool
  nativeServer : String → Bool
  countryMatch : List String → String → Bool

/-! ## The eligibility pass -/

/-- The accumulator of the first loop of `apiIpValidPage`: the two
IP-to-keycount maps and the four per-reason exclusion sets.  (The
`count_servers_*` integers and the stats text feed only the stats log,
which is not modelled.) -/
structure SelPass where
  ipsOne : List (String × Int)
  ipsAll : List (String × Int)
  skip1010 : List String
  tooOld : List String
  unwanted : List String
  wrongCountry : List String
deriving DecidableEq, Repr

/-- The inner loop body of the eligibility pass: record the IP in
`ips_all` and, per reject flag, in the matching exclusion set. -/
def passIns (is1010 isOld isNonproxy isWrongCountry : Bool) (kc : Int)
    (a : SelPass) (ip : String) : SelPass :=
  let a1 := { a with ipsAll := alSet a.ipsAll ip kc }
  let a2 := if is1010 then { a1 with skip1010 := setIns a1.skip1010 ip } else a1
  let a3 := if isOld then { a2 with tooOld := setIns a2.tooOld ip } else a2
  let a4 := if isNonproxy then { a3 with unwanted := setIns a3.unwanted ip } else a3
  if isWrongCountry then { a4 with wrongCountry := setIns a4.wrongCountry ip } else a4

/-- One iteration of the eligibility loop (one name of `Sorted`).  A name
absent from `HostMap` never occurs in a snapshot the program builds (it
would nil-panic in Go) and is skipped. -/
def passOne (cfg : SelConfig) (q : Query) (persisted : PersistedState)
    (acc : SelPass) (name : String) : SelPass :=
  match alGet persisted.HostMap name with
  | none => acc
  | some node =>
    if node.Keycount ≤ 1 then acc
    else
      let is1010 := node.Version == "1.0.10"
      let isOld :=
        match q.minimumVersion with
        | some mv => !(cfg.versionAtLeast node.Version mv)
        | none => false
      let isNonproxy :=
        q.limitToProxies && node.ViaHeader == "" && cfg.nativeServer node.ServerHeader
      let isWrongCountry :=
        match q.limitToCountries with
        | some cs =>
            !(node.IpList.any (fun ip =>
                match persisted.IPCountryMap ip with
                | some geo => cfg.countryMatch cs geo
                | none => false))
        | none => false
      match node.IpList with
      | [] => acc
      | ip0 :: _ =>
        let acc1 := { acc with ipsOne := alSet acc.ipsOne ip0 node.Keycount }
        node.IpList.foldl (passIns is1010 isOld isNonproxy isWrongCountry node.Keycount) acc1

/-- The whole eligibility pass over the snapshot's sorted name list. -/
def selPass (cfg : SelConfig) (q : Query) (persisted : PersistedState) : SelPass :=
  persisted.Sorted.foldl (passOne cfg q persisted) ⟨[], [], [], [], [], []⟩

/-! ## Bucketing, mode bucket, statistics -/

/-- The keycount buckets: `bucket = count / kBUCKET_SIZE` (Go integer
division truncates toward zero). -/
def selBuckets (cfg : SelConfig) (p : SelPass) : List (Int × List Int) :=
  p.ipsOne.foldl (fun b kv => alApp b (Int.tdiv kv.2 cfg.bucketSize) kv.2) []

/-- One step of the largest-bucket scan: keep the first strictly larger
member count. -/
def plStep (bks : List (Int × List Int)) (acc : Int × Nat) (k : Int) : Int × Nat :=
  if ((alGet bks k).getD []).length > acc.2 then (k, ((alGet bks k).getD []).length)
  else acc

/-- The largest-bucket scan: fold over the bucket keys in iteration order
`order` (initial state `(0, 0)`, exactly the Go zero values). -/
def pickLargest (bks : List (Int × List Int)) (order : List Int) : Int × Nat :=
  order.foldl (plStep bks) (0, 0)

def sumInts (l : List Int) : Int := l.foldl (fun a v => a + v) 0

/-- `float64(sum) / float64(n)` over a list of counts. -/
def meanOf (l : List Int) : GoReal := ⟨sumInts l, l.length⟩

/-- The accumulated `sd += d * d` loop. -/
def sdSum (l : List Int) (mean : GoReal) : GoReal :=
  l.foldl
    (fun acc v => acc.add (((GoReal.ofInt v).sub mean).mul ((GoReal.ofInt v).sub mean)))
    (GoReal.ofInt 0)

/-- `math.Sqrt(sd / float64(n))`. -/
def sdOf (l : List Int) (mean : GoReal) : GoReal :=
  GoReal.sqrt ⟨(sdSum l mean).n, (sdSum l mean).d * l.length⟩

/-- Ascending insertion sort (the `sort.Ints` call). -/
def insortI (x : Int) : List Int → List Int
  | [] => [x]
  | y :: ys => if x ≤ y then x :: y :: ys else y :: insortI x ys

def sortInts (l : List Int) : List Int := l.foldr insortI []

/-! ## The selector pipeline, with the largest-bucket iteration order as an
explicit parameter -/

def selModeList (cfg : SelConfig) (p : SelPass) (order : List Int) : List Int :=
  (alGet (selBuckets cfg p) (pickLargest (selBuckets cfg p) order).1).getD []

def selFpMean (cfg : SelConfig) (p : SelPass) (order : List Int) : GoReal :=
  meanOf (selModeList cfg p order)

def selFpSd (cfg : SelConfig) (p : SelPass) (order : List Int) : GoReal :=
  sdOf (selModeList cfg p order) (selFpMean cfg p order)

/-- `first_bounds_min = int(first_mean - 5 * first_sd)`. -/
def selBndMin (cfg : SelConfig) (p : SelPass) (order : List Int) : Int :=
  ((selFpMean cfg p order).sub ((GoReal.ofInt 5).mul (selFpSd cfg p order))).trunc

/-- `first_bounds_max = int(first_mean + 5 * first_sd)`. -/
def selBndMax (cfg : SelConfig) (p : SelPass) (order : List Int) : Int :=
  ((selFpMean cfg p order).add ((GoReal.ofInt 5).mul (selFpSd cfg p order))).trunc

/-- Whether a keycount lies within the first-pass bounds. -/
def selInB (cfg : SelConfig) (p : SelPass) (order : List Int) (c : Int) : Bool :=
  decide (selBndMin cfg p order ≤ c) && decide (c ≤ selBndMax cfg p order)

/-- `first_ips_list`: the in-bounds keys of `ips_one_per_server` (bounds
checked against `ips_all`). -/
def selFirstIps (cfg : SelConfig) (p : SelPass) (order : List Int) : List String :=
  (alKeys p.ipsOne).filter (fun ip => selInB cfg p order ((alGet p.ipsAll ip).getD 0))

/-- `first_ips_alllist`: the in-bounds keys of `ips_all`. -/
def selFirstIpsAll (cfg : SelConfig) (p : SelPass) (order : List Int) : List String :=
  (alKeys p.ipsAll).filter (fun ip => selInB cfg p order ((alGet p.ipsAll ip).getD 0))

/-- The keycounts of `first_ips`. -/
def selVals (cfg : SelConfig) (p : SelPass) (order : List Int) : List Int :=
  (selFirstIps cfg p order).map (fun ip => (alGet p.ipsAll ip).getD 0)

def selSecondMean (cfg : SelConfig) (p : SelPass) (order : List Int) : GoReal :=
  meanOf (selVals cfg p order)

def selSecondSd (cfg : SelConfig) (p : SelPass) (order : List Int) : GoReal :=
  sdOf (selVals cfg p order) (selSecondMean cfg p order)

/-- The computed threshold: second-largest in-bounds count (index
`len - 2`, clamped at 0 — Nat subtraction does the clamping) minus
`jitter + int(second_sd)`. -/
def selThreshold (cfg : SelConfig) (p : SelPass) (order : List Int) : Int :=
  (sortInts (selVals cfg p order)).getD ((selVals cfg p order).length - 2) 0 -
    (cfg.keysDailyJitter + (selSecondSd cfg p order).trunc)

/-- The selector's outcome: the HTTP layer renders `invalid` as the
`status=INVALID reason=...` response and `valid` as the IP list plus
`minimum=threshold`. -/
inductive SelResult where
  | invalid (reason : String)
  | valid (ips : List String) (threshold : Int)
deriving DecidableEq, Repr

/-- The proxies filter (last). -/
def selAfterCountries (q : Query) (p : SelPass) (threshold : Int)
    (ips : List String) : SelResult :=
  if q.limitToProxies then
    let ips2 := ips.filter (fun ip => !(p.unwanted.contains ip))
    if ips2.isEmpty then .invalid "No_servers_left_after_proxies_filter"
    else .valid ips2 threshold
  else .valid ips threshold

/-- The countries filter, then proxies. -/
def selAfterVersion (q : Query) (p : SelPass) (threshold : Int)
    (ips : List String) : SelResult :=
  match q.limitToCountries with
  | some _ =>
      let ips2 := ips.filter (fun ip => !(p.wrongCountry.contains ip))
      if ips2.isEmpty then .invalid "No_servers_left_after_country_filter"
      else selAfterCountries q p threshold ips2
  | none => selAfterCountries q p threshold ips

/-- The minimum-version filter, then countries, then proxies. -/
def selAfter1010 (q : Query) (p : SelPass) (threshold : Int)
    (ips : List String) : SelResult :=
  match q.minimumVersion with
  | some _ =>
      let ips2 := ips.filter (fun ip => !(p.tooOld.contains ip))
      if ips2.isEmpty then .invalid "No_servers_left_after_minimum_version_filter"
      else selAfterVersion q p threshold ips2
  | none => selAfterVersion q p threshold ips

/-- `apiIpValidPage` from the first statistics loop to the response,
given the iteration order of the largest-bucket scan.  (The exact reason
strings of the version/country filters interpolate `String()` methods
defined outside the two sources; they are modelled by their stable
prefixes.) -/
def selectorWithOrder (cfg : SelConfig) (q : Query) (persisted : PersistedState)
    (order : List Int) : SelResult :=
  let p := selPass cfg q persisted
  if (selBuckets cfg p).isEmpty then .invalid "broken_no_buckets"
  else if GoReal.ltb (selSecondMean cfg p order) (GoReal.ofInt cfg.keysSanityMin) then
    .invalid "broken_data"
  else
    let threshold :=
      match q.thresholdOverride with
      | some i => if i > 0 then i else selThreshold cfg p order
      | none => selThreshold cfg p order
    let ips0 :=
      (selFirstIpsAll cfg p order).filter
        (fun ip => decide ((alGet p.ipsAll ip).getD 0 ≥ threshold))
    if ips0.isEmpty then .invalid "threshold_too_high"
    else
      let ips1 := ips0.filter (fun ip => !(p.skip1010.contains ip))
      if ips1.isEmpty then .invalid "No_servers_left_after_v1.0.10_filter"
      else selAfter1010 q p threshold ips1

/-- The selector with the canonical (first-insertion) iteration order of
the bucket keys. -/
def selectorGo (cfg : SelConfig) (q : Query) (persisted : PersistedState) : SelResult :=
  selectorWithOrder cfg q persisted (alKeys (selBuckets cfg (selPass cfg q persisted)))

/-! ## Concrete instances used by the counterexamples and witnesses -/

/-- A configuration under which nothing is blacklisted, nothing parses as
an IP literal and no IP is disallowed (all such sets are possible contents
of the configuration files). -/
def cfgFree : SpiderConfig where
  blacklistedHosts := fun _ => false
  blacklistedQueryHosts := []
  parsesAsIP := fun _ => false
  ipDisallowed := fun _ => false

/-- Like `cfgFree` but with the loopback-style address `10.0.0.1` on the
disallowed list (the real `IPDisallowed` rejects private ranges). -/
def cfgPriv : SpiderConfig where
  blacklistedHosts := fun _ => false
  blacklistedQueryHosts := []
  parsesAsIP := fun _ => false
  ipDisallowed := fun ip => ip == "10.0.0.1"

/-- A probe answer whose status page reports `Hostname: b.example.com`. -/
def nodeSelfB : SksNode where
  Hostname := "a.example.com"
  Settings := [("Hostname", "b.example.com")]
  GossipPeerList := []
  Keycount := 100
  Version := "1.1.6"
  ViaHeader := ""
  ServerHeader := "sks_www/1.1.6"
  IpList := []

/-- Two hosts sharing IP `1.2.3.4`; the probe of the first then reveals the
second as its self-reported hostname. -/
def traceC1 : List SpiderMsg :=
  [ .batchAdd ⟨["a.example.com"], 0, ""⟩
  , .batchAdd ⟨["b.example.com"], 0, ""⟩
  , .dnsRes ⟨"a.example.com", ["1.2.3.4"], none⟩
  , .dnsRes ⟨"b.example.com", ["1.2.3.4", "5.6.7.8"], none⟩
  , .hostRes ⟨"a.example.com", some nodeSelfB, none⟩ ]

def stateC1 : SpiderState := runSpider cfgFree initialSpider traceC1

/-- One successfully renamed host and one host whose DNS lookup fails. -/
def traceC5 : List SpiderMsg :=
  [ .batchAdd ⟨["a.example.com"], 0, ""⟩
  , .dnsRes ⟨"a.example.com", ["1.2.3.4"], none⟩
  , .hostRes ⟨"a.example.com", some nodeSelfB, none⟩
  , .batchAdd ⟨["c.example.com"], 0, ""⟩
  , .dnsRes ⟨"c.example.com", [], some "no such host"⟩ ]

def stateC5 : SpiderState := runSpider cfgFree initialSpider traceC5

/-- A known host on `5.6.7.8`, then a DNS answer for a second host listing
the known `5.6.7.8` before the disallowed `10.0.0.1`. -/
def traceC4 : List SpiderMsg :=
  [ .batchAdd ⟨["a.example.com"], 0, ""⟩
  , .dnsRes ⟨"a.example.com", ["5.6.7.8"], none⟩
  , .batchAdd ⟨["b.example.com"], 0, ""⟩
  , .dnsRes ⟨"b.example.com", ["5.6.7.8", "10.0.0.1"], none⟩ ]

def stateC4 : SpiderState := runSpider cfgPriv initialSpider traceC4

/-- A fresh host whose single IP gets a country lookup enqueued. -/
def traceC10 : List SpiderMsg :=
  [ .batchAdd ⟨["a.example.com"], 0, ""⟩
  , .dnsRes ⟨"a.example.com", ["1.2.3.4"], none⟩ ]

def stateC10 : SpiderState := runSpider cfgFree initialSpider traceC10

/-- A server for the selector scenarios. -/
def mkNode (hn : String) (kc : Int) (ips : List String) : SksNode :=
  ⟨hn, [], [], kc, "1.1.6", "", "sks_www/1.1.6", ips⟩

/-- `kBUCKET_SIZE = 1000`, `KEYS_SANITY_MIN = 1000`, `KEYS_DAILY_JITTER = 100`
(the values of spec scenario S3). -/
def cfgSelA : SelConfig where
  bucketSize := 1000
  keysSanityMin := 1000
  keysDailyJitter := 100
  versionAtLeast := fun _ _ => false
  nativeServer := fun _ => false
  countryMatch := fun _ _ => false

/-- Like `cfgSelA` but with `KEYS_SANITY_MIN = 1` so that small keycounts
survive the sanity check. -/
def cfgSelB : SelConfig where
  bucketSize := 1000
  keysSanityMin := 1
  keysDailyJitter := 100
  versionAtLeast := fun _ _ => false
  nativeServer := fun _ => false
  countryMatch := fun _ _ => false

/-- The query with no parameters set. -/
def qEmpty : Query := ⟨false, none, none, none⟩

/-- The query setting only `threshold=1`. -/
def qOv1 : Query := ⟨false, none, none, some 1⟩

/-- Two servers whose keycounts 1000 and 3000 fall into two different
buckets of one member each: a tie for the largest bucket. -/
def snapTie : PersistedState where
  HostMap := [("a.x", mkNode "a.x" 1000 ["1.1.1.1"]),
              ("b.x", mkNode "b.x" 3000 ["2.2.2.2"])]
  Sorted := ["a.x", "b.x"]
  IPCountryMap := fun _ => none

/-- Three servers: 1000 and 1700 share bucket 1 (two members), 3000 sits
alone in bucket 3 — the largest bucket count is attained uniquely. -/
def snapUniq : PersistedState where
  HostMap := [("a.x", mkNode "a.x" 1000 ["1.1.1.1"]),
              ("b.x", mkNode "b.x" 1700 ["2.2.2.2"]),
              ("c.x", mkNode "c.x" 3000 ["3.3.3.3"])]
  Sorted := ["a.x", "b.x", "c.x"]
  IPCountryMap := fun _ => none

/-- Servers with keycounts 2, 10 and 1: the first pair yields first-pass
bounds `[-14, 26]`, which contain the keycount-1 server that was dropped
before statistics. -/
def snapKey1 : PersistedState where
  HostMap := [("a.x", mkNode "a.x" 2 ["1.1.1.1"]),
              ("b.x", mkNode "b.x" 10 ["2.2.2.2"]),
              ("c.x", mkNode "c.x" 1 ["3.3.3.3"])]
  Sorted := ["a.x", "b.x", "c.x"]
  IPCountryMap := fun _ => none

/-- Ten servers, one IP each, all at keycount 5000 (spec scenario S3). -/
def snapUniform : PersistedState where
  HostMap := [("a.x", mkNode "a.x" 5000 ["1.1.1.1"]),
              ("b.x", mkNode "b.x" 5000 ["2.2.2.2"])]
  Sorted := ["a.x", "b.x"]
  IPCountryMap := fun _ => none

/-- Bool-level check that a whole message sequence is deliverable from a
state (each message valid in the state reached so far). -/
def runOK (cfg : SpiderConfig) (st : SpiderState) : List SpiderMsg → Bool
  | [] => true
  | m :: rest => msgOK st m && runOK cfg (spiderStep cfg st m) rest

/-! ## Generic lemmas about the map and list helpers -/

theorem foldl_pres {α β : Type} {f : α → β → α} (Q : α → Prop) (l : List β) (s : α)
    (h0 : Q s) (hstep : ∀ s2 x, x ∈ l → Q s2 → Q (f s2 x)) : Q (l.foldl f s) := by
  induction l generalizing s with
  | nil => exact h0
  | cons a l ih =>
      exact ih (f s a) (hstep s a (by simp) h0)
        (fun s2 x hx => hstep s2 x (by simp [hx]))

theorem upd_self {β : Type} (m : String → Option β) (k : String) (v : β) :
    upd m k v k = some v := by simp [upd]

theorem upd_other {β : Type} (m : String → Option β) (k x : String) (v : β)
    (h : x ≠ k) : upd m k v x = m x := by simp [upd, h]

theorem upd_isSome {β : Type} (m : String → Option β) (k x : String) (v : β)
    (h : (m x).isSome) : (upd m k v x).isSome := by
  by_cases hx : x = k <;> simp [upd, hx, h]

theorem setAdd_mono (s : String → Bool) (k x : String) (h : s x = true) :
    setAdd s k x = true := by
  by_cases hx : x = k <;> simp [setAdd, hx, h]

theorem foldl_upd_const (l : List String) (m : String → Option String) (c : String)
    (x : String) :
    (l.foldl (fun m2 a => upd m2 a c) m) x = if x ∈ l then some c else m x := by
  induction l generalizing m with
  | nil => simp
  | cons a l ih =>
      simp only [List.foldl_cons, ih, List.mem_cons]
      by_cases hl : x ∈ l
      · simp [hl]
      · by_cases hx : x = a <;> simp [hl, hx, upd]

theorem alGet_mem {α β : Type} [DecidableEq α] (m : List (α × β)) (k : α) (v : β)
    (h : alGet m k = some v) : (k, v) ∈ m := by
  induction m with
  | nil => simp [alGet] at h
  | cons kv rest ih =>
      obtain ⟨k2, v2⟩ := kv
      by_cases hk : k2 = k
      · subst hk
        simp [alGet] at h
        simp [h]
      · simp [alGet, hk] at h
        simp [ih h]

theorem mem_alKeys_isSome {α β : Type} [DecidableEq α] (m : List (α × β)) (k : α)
    (h : k ∈ alKeys m) : (alGet m k).isSome := by
  induction m with
  | nil => simp [alKeys] at h
  | cons kv rest ih =>
      by_cases hk : kv.1 = k
      · obtain ⟨k2, v2⟩ := kv
        simp at hk
        subst hk
        simp [alGet]
      · obtain ⟨k2, v2⟩ := kv
        simp [alKeys] at h hk
        rcases h with h | h
        · exact absurd h.symm hk
        · simpa [alGet, hk] using ih (by simpa [alKeys] using h)

theorem isSome_mem_alKeys {α β : Type} [DecidableEq α] (m : List (α × β)) (k : α)
    (h : (alGet m k).isSome) : k ∈ alKeys m := by
  obtain ⟨v, hv⟩ := Option.isSome_iff_exists.mp h
  have := alGet_mem m k v hv
  simpa [alKeys] using ⟨v, this⟩

theorem alSet_all {α β : Type} [DecidableEq α] {P : β → Prop} (m : List (α × β))
    (k : α) (v : β) (hm : ∀ kv ∈ m, P kv.2) (hv : P v) :
    ∀ kv ∈ alSet m k v, P kv.2 := by
  induction m with
  | nil => simpa [alSet] using hv
  | cons kv2 rest ih =>
      obtain ⟨k2, v2⟩ := kv2
      by_cases hk : k2 = k
      · intro kv hkv
        simp [alSet, hk] at hkv
        rcases hkv with hkv | hkv
        · simp [hkv, hv]
        · exact hm kv (by simp [hkv])
      · intro kv hkv
        simp [alSet, hk] at hkv
        rcases hkv with hkv | hkv
        · exact hm kv (by simp [hkv])
        · exact ih (fun kv2 h2 => hm kv2 (by simp [h2])) kv hkv

theorem alApp_all {P : Int → Prop} (m : List (Int × List Int)) (k : Int) (v : Int)
    (hm : ∀ kv ∈ m, (∀ x ∈ kv.2, P x) ∧ kv.2 ≠ []) (hv : P v) :
    ∀ kv ∈ alApp m k v, (∀ x ∈ kv.2, P x) ∧ kv.2 ≠ [] := by
  induction m with
  | nil =>
      intro kv hkv
      simp [alApp] at hkv
      subst hkv
      simpa using hv
  | cons kv2 rest ih =>
      obtain ⟨k2, l⟩ := kv2
      by_cases hk : k2 = k
      · intro kv hkv
        simp [alApp, hk] at hkv
        rcases hkv with hkv | hkv
        · subst hkv
          have h2 := hm (k2, l) (by simp)
          refine ⟨?_, by simp⟩
          intro x hx
          simp at hx
          rcases hx with hx | hx
          · exact h2.1 x hx
          · simpa [hx] using hv
        · exact hm kv (by simp [hkv])
      · intro kv hkv
        simp [alApp, hk] at hkv
        rcases hkv with hkv | hkv
        · exact hm kv (by simp [hkv])
        · exact ih (fun kv2 h2 => hm kv2 (by simp [h2])) kv hkv

theorem alApp_ne_nil (m : List (Int × List Int)) (k : Int) (v : Int) :
    alApp m k v ≠ [] := by
  cases m with
  | nil => simp [alApp]
  | cons kv rest =>
      obtain ⟨k2, l⟩ := kv
      by_cases hk : k2 = k <;> simp [alApp, hk]

theorem foldl_add_shift (l : List Int) (acc : Int) :
    l.foldl (fun a v => a + v) acc = acc + l.foldl (fun a v => a + v) 0 := by
  induction l generalizing acc with
  | nil => simp
  | cons a l ih =>
      simp only [List.foldl_cons]
      rw [ih (acc + a), ih (0 + a)]
      ring

theorem sumInts_allK (l : List Int) (K : Int) (h : ∀ v ∈ l, v = K) :
    sumInts l = (l.length : Int) * K := by
  induction l with
  | nil => simp [sumInts]
  | cons a l ih =>
      have ha : a = K := h a (by simp)
      have hl : ∀ v ∈ l, v = K := fun v hv => h v (by simp [hv])
      simp only [sumInts, List.foldl_cons] at *
      rw [foldl_add_shift, ih hl, ha]
      simp only [List.length_cons]
      push_cast
      ring

theorem mem_insortI (x v : Int) (l : List Int) :
    v ∈ insortI x l ↔ v = x ∨ v ∈ l := by
  induction l with
  | nil => simp [insortI]
  | cons a l ih =>
      by_cases hx : x ≤ a
      · simp [insortI, hx]
      · simp [insortI, hx, ih]
        tauto

theorem length_insortI (x : Int) (l : List Int) :
    (insortI x l).length = l.length + 1 := by
  induction l with
  | nil => simp [insortI]
  | cons a l ih =>
      by_cases hx : x ≤ a <;> simp [insortI, hx, ih]

theorem sortInts_allK (l : List Int) (K : Int) (h : ∀ v ∈ l, v = K) :
    (∀ v ∈ sortInts l, v = K) ∧ (sortInts l).length = l.length := by
  induction l with
  | nil => simp [sortInts]
  | cons a l ih =>
      have hl := ih (fun v hv => h v (by simp [hv]))
      constructor
      · intro v hv
        simp only [sortInts, List.foldr_cons] at hv
        rcases (mem_insortI a v _).mp hv with hv | hv
        · simp [hv, h a (by simp)]
        · exact hl.1 v hv
      · simp only [sortInts, List.foldr_cons, length_insortI]
        simp [sortInts] at hl
        simp [hl.2]

theorem getD_allK (l : List Int) (K : Int) (i : Nat) (hi : i < l.length)
    (h : ∀ v ∈ l, v = K) : l.getD i 0 = K := by
  induction l generalizing i with
  | nil => simp at hi
  | cons a l ih =>
      cases i with
      | zero => simpa using h a (by simp)
      | succ i =>
          simp only [List.getD_cons_succ]
          exact ih i (by simpa using hi) (fun v hv => h v (by simp [hv]))

/-! ## The inductive spider invariant

The conjuncts: (1) every `knownHosts` value is itself a `knownHosts` key;
(2) every `knownIPs` value is a `knownHosts` key; (3) no hostname is
handed to a DNS worker twice; (4) every DNS-resolved hostname is in
`considering`; (5) every `badDNS` member is in `considering`; (6) every IP
ever enqueued for a country lookup has a `countriesForIPs` entry; (7)
every probed hostname is a `knownHosts` key. -/
def SpiderInv (st : SpiderState) : Prop :=
  (∀ h c, st.knownHosts h = some c → (st.knownHosts c).isSome) ∧
  (∀ ip c, st.knownIPs ip = some c → (st.knownHosts c).isSome) ∧
  st.dnsLog.Nodup ∧
  (∀ h ∈ st.dnsLog, st.considering h = true) ∧
  (∀ h, st.badDNS h = true → st.considering h = true) ∧
  (∀ ip ∈ st.countryLog, (st.countriesForIPs ip).isSome) ∧
  (∀ h ∈ st.probeLog, (st.knownHosts h).isSome)

theorem spiderInv_initial : SpiderInv initialSpider := by
  refine ⟨?_, ?_, ?_, ?_, ?_, ?_, ?_⟩ <;> simp [initialSpider]

theorem considerPromote_fields (st : SpiderState) (hostname : String) (d : Int) :
    considerPromote st hostname d =
      { st with distances := (considerPromote st hostname d).distances } := by
  unfold considerPromote
  split
  · split <;> rfl
  · rfl

theorem inv_considerHost (cfg : SpiderConfig) (st : SpiderState) (hostname : String)
    (req : HostsRequest) (hinv : SpiderInv st) :
    SpiderInv (considerHost cfg st hostname req) := by
  obtain ⟨h1, h2, h3, h4, h5, h6, h7⟩ := hinv
  have hinv1 :
      ∀ st1 : SpiderState,
        st1.knownHosts = st.knownHosts → st1.knownIPs = st.knownIPs →
        st1.dnsLog = st.dnsLog → st1.considering = st.considering →
        st1.badDNS = st.badDNS → st1.countryLog = st.countryLog →
        st1.countriesForIPs = st.countriesForIPs → st1.probeLog = st.probeLog →
        ∀ distance : Int,
        SpiderInv (if considerSkip cfg st1 hostname then
          { st1 with pendingHosts := bump st1.pendingHosts hostname (-1) }
        else
          { st1 with
            considering := setAdd st1.considering hostname
            distances := upd st1.distances hostname distance
            dnsLog := st1.dnsLog ++ [hostname] }) := by
    intro st1 e1 e2 e3 e4 e5 e6 e7 e8 distance
    by_cases hskip : considerSkip cfg st1 hostname = true
    · rw [if_pos hskip]
      exact ⟨by simp only [e1]; exact h1, by simp only [e1, e2]; exact h2,
        by simp only [e3]; exact h3,
        by simp only [e3, e4]; exact h4, by simp only [e4, e5]; exact h5,
        by simp only [e6, e7]; exact h6, by simp only [e1, e8]; exact h7⟩
    · rw [if_neg hskip]
      have hcons : st1.considering hostname = false := by
        unfold considerSkip at hskip
        simp only [Bool.or_eq_true, not_or, Bool.not_eq_true] at hskip
        exact hskip.1.1.1.1.1.1.1.1
      have hnotin : hostname ∉ st1.dnsLog := by
        intro hmem
        have hct := h4 hostname (by rwa [e3] at hmem)
        rw [← e4] at hct
        simp [hct] at hcons
      refine ⟨by simp only [e1]; exact h1, by simp only [e1, e2]; exact h2, ?_, ?_, ?_,
        by simp only [e6, e7]; exact h6, by simp only [e1, e8]; exact h7⟩
      · show (st1.dnsLog ++ [hostname]).Nodup
        rw [List.nodup_append]
        exact ⟨by rw [e3]; exact h3, by simp, by simpa using hnotin⟩
      · intro h hm
        simp only [List.mem_append, List.mem_singleton] at hm
        rcases hm with hm | hm
        · exact setAdd_mono _ _ _ (by rw [e4]; exact h4 h (by rwa [e3] at hm))
        · simp [hm, setAdd]
      · intro h hb
        exact setAdd_mono _ _ _ (by rw [e4]; exact h5 h (by rwa [e5] at hb))
  simp only [considerHost]
  have hfe := considerPromote_fields st hostname (considerDistance st req)
  exact hinv1 _ (by rw [hfe]) (by rw [hfe]) (by rw [hfe]) (by rw [hfe]) (by rw [hfe])
    (by rw [hfe]) (by rw [hfe]) (by rw [hfe]) _

theorem inv_dnsFreshHost (st : SpiderState) (hostname : String) (ipList : List String)
    (hinv : SpiderInv st) : SpiderInv (dnsFreshHost st hostname ipList) := by
  obtain ⟨h1, h2, h3, h4, h5, h6, h7⟩ := hinv
  simp only [dnsFreshHost]
  set st1 : SpiderState := { st with
    knownHosts := upd st.knownHosts hostname hostname
    aliasesForHost := upd st.aliasesForHost hostname [hostname]
    ipsForHost := upd st.ipsForHost hostname ipList } with hst1
  have hQ :
      (fun s : SpiderState =>
        s.knownHosts = upd st.knownHosts hostname hostname ∧
        (∀ ip c, s.knownIPs ip = some c → (s.knownHosts c).isSome) ∧
        (∀ ip ∈ s.countryLog, (s.countriesForIPs ip).isSome) ∧
        s.dnsLog = st.dnsLog ∧ s.considering = st.considering ∧
        s.badDNS = st.badDNS ∧ s.probeLog = st.probeLog)
        (ipList.foldl (dnsFreshStep hostname) st1) := by
    apply foldl_pres
        (fun s : SpiderState =>
          s.knownHosts = upd st.knownHosts hostname hostname ∧
          (∀ ip c, s.knownIPs ip = some c → (s.knownHosts c).isSome) ∧
          (∀ ip ∈ s.countryLog, (s.countriesForIPs ip).isSome) ∧
          s.dnsLog = st.dnsLog ∧ s.considering = st.considering ∧
          s.badDNS = st.badDNS ∧ s.probeLog = st.probeLog)
    · refine ⟨rfl, ?_, ?_, rfl, rfl, rfl, rfl⟩
      · intro ip c hc
        have hc2 : st.knownIPs ip = some c := hc
        exact upd_isSome _ _ _ _ (h2 ip c hc2)
      · exact h6
    · intro s ip _ hq
      obtain ⟨q1, q2, q3, q4, q5, q6, q7⟩ := hq
      simp only [dnsFreshStep]
      by_cases hc : ((s.countriesForIPs) ip).isNone
      · rw [if_pos hc]
        refine ⟨q1, ?_, ?_, q4, q5, q6, q7⟩
        · intro jp c hc2
          dsimp only at hc2 ⊢
          by_cases hip : jp = ip
          · subst hip
            rw [upd_self] at hc2
            cases hc2
            rw [q1, upd_self]
            rfl
          · rw [upd_other _ _ _ _ hip] at hc2
            exact q2 jp c hc2
        · intro jp hm
          dsimp only at hm ⊢
          simp only [List.mem_append, List.mem_singleton] at hm
          rcases hm with hm | hm
          · exact upd_isSome _ _ _ _ (q3 jp hm)
          · subst hm
            rw [upd_self]
            rfl
      · rw [if_neg hc]
        refine ⟨q1, ?_, q3, q4, q5, q6, q7⟩
        intro jp c hc2
        dsimp only at hc2 ⊢
        by_cases hip : jp = ip
        · subst hip
          rw [upd_self] at hc2
          cases hc2
          rw [q1, upd_self]
          rfl
        · rw [upd_other _ _ _ _ hip] at hc2
          exact q2 jp c hc2
  obtain ⟨q1, q2, q3, q4, q5, q6, q7⟩ := hQ
  refine ⟨?_, ?_, ?_, ?_, ?_, ?_, ?_⟩
  · intro h c hc
    dsimp only at hc ⊢
    rw [q1] at hc ⊢
    by_cases hh : h = hostname
    · subst hh
      rw [upd_self] at hc
      cases hc
      rw [upd_self]
      rfl
    · rw [upd_other _ _ _ _ hh] at hc
      exact upd_isSome _ _ _ _ (h1 h c hc)
  · intro ip c hc
    dsimp only at hc ⊢
    exact q2 ip c hc
  · show ((ipList.foldl (dnsFreshStep hostname) st1).dnsLog).Nodup
    rw [q4]
    exact h3
  · intro h hm
    dsimp only at hm ⊢
    rw [q4] at hm
    rw [q5]
    exact h4 h hm
  · intro h hb
    dsimp only at hb ⊢
    rw [q6] at hb
    rw [q5]
    exact h5 h hb
  · intro ip hm
    dsimp only at hm ⊢
    exact q3 ip hm
  · intro h hm
    dsimp only at hm ⊢
    simp only [List.mem_append, List.mem_singleton] at hm
    rw [q1]
    rcases hm with hm | hm
    · rw [q7] at hm
      exact upd_isSome _ _ _ _ (h7 h hm)
    · subst hm
      rw [upd_self]
      rfl

theorem inv_dnsAliasMerge (st : SpiderState) (hostname canonical : String)
    (ipList : List String) (hinv : SpiderInv st)
    (hc : (st.knownHosts canonical).isSome) :
    SpiderInv (dnsAliasMerge st hostname canonical ipList) := by
  obtain ⟨h1, h2, h3, h4, h5, h6, h7⟩ := hinv
  simp only [dnsAliasMerge]
  have hcan : ((upd st.knownHosts hostname canonical) canonical).isSome := by
    by_cases hx : canonical = hostname
    · rw [hx, upd_self]
      rfl
    · rw [upd_other _ _ _ _ hx]
      exact hc
  refine ⟨?_, ?_, h3, h4, h5, h6, ?_⟩
  · intro h c hcc
    dsimp only at hcc ⊢
    by_cases hh : h = hostname
    · subst hh
      rw [upd_self] at hcc
      cases hcc
      exact hcan
    · rw [upd_other _ _ _ _ hh] at hcc
      exact upd_isSome _ _ _ _ (h1 h c hcc)
  · intro ip c hcc
    dsimp only at hcc ⊢
    rw [foldl_upd_const] at hcc
    by_cases hip : ip ∈ ipList
    · rw [if_pos hip] at hcc
      cases hcc
      exact hcan
    · rw [if_neg hip] at hcc
      exact upd_isSome _ _ _ _ (h2 ip c hcc)
  · intro h hm
    dsimp only at hm ⊢
    exact upd_isSome _ _ _ _ (h7 h hm)

theorem inv_dnsScan (cfg : SpiderConfig) (st : SpiderState) (hostname : String)
    (ipList : List String) (hinv : SpiderInv st)
    (hcons : st.considering hostname = true) :
    ∀ scan : List String, SpiderInv (dnsScan cfg st hostname ipList scan) := by
  obtain ⟨h1, h2, h3, h4, h5, h6, h7⟩ := hinv
  intro scan
  induction scan with
  | nil => exact inv_dnsFreshHost st hostname ipList ⟨h1, h2, h3, h4, h5, h6, h7⟩
  | cons ip rest ih =>
      simp only [dnsScan]
      by_cases hd : cfg.ipDisallowed ip = true
      · rw [if_pos hd]
        refine ⟨h1, h2, h3, h4, ?_, h6, h7⟩
        intro h hb
        dsimp only at hb ⊢
        by_cases hh : h = hostname
        · subst hh
          exact hcons
        · simp only [setAdd, if_neg hh] at hb
          exact h5 h hb
      · rw [if_neg hd]
        cases hk : st.knownIPs ip with
        | some canonical =>
            exact inv_dnsAliasMerge st hostname canonical ipList
              ⟨h1, h2, h3, h4, h5, h6, h7⟩ (h2 ip canonical hk)
        | none => exact ih

theorem inv_processDnsResult (cfg : SpiderConfig) (st : SpiderState) (dns : DnsResult)
    (hinv : SpiderInv st) (hcons : st.considering dns.hostname = true) :
    SpiderInv (processDnsResult cfg st dns) := by
  obtain ⟨h1, h2, h3, h4, h5, h6, h7⟩ := hinv
  simp only [processDnsResult]
  by_cases he : dns.err.isSome
  · rw [if_pos he]
    refine ⟨h1, h2, h3, h4, ?_, h6, h7⟩
    intro h hb
    dsimp only at hb ⊢
    by_cases hh : h = dns.hostname
    · subst hh
      exact hcons
    · simp only [setAdd, if_neg hh] at hb
      exact h5 h hb
  · rw [if_neg he]
    exact inv_dnsScan cfg st dns.hostname _ ⟨h1, h2, h3, h4, h5, h6, h7⟩ hcons _

theorem inv_transfer (a b : SpiderState)
    (e1 : b.knownHosts = a.knownHosts) (e2 : b.knownIPs = a.knownIPs)
    (e3 : b.dnsLog = a.dnsLog) (e4 : b.considering = a.considering)
    (e5 : b.badDNS = a.badDNS) (e6 : b.countryLog = a.countryLog)
    (e7 : b.countriesForIPs = a.countriesForIPs) (e8 : b.probeLog = a.probeLog)
    (hinv : SpiderInv a) : SpiderInv b := by
  obtain ⟨h1, h2, h3, h4, h5, h6, h7⟩ := hinv
  refine ⟨?_, ?_, ?_, ?_, ?_, ?_, ?_⟩
  · rw [e1]
    exact h1
  · rw [e1, e2]
    exact h2
  · rw [e3]
    exact h3
  · rw [e3, e4]
    exact h4
  · rw [e4, e5]
    exact h5
  · rw [e6, e7]
    exact h6
  · rw [e1, e8]
    exact h7

theorem hostRename_proj (st : SpiderState) (hostname canonical : String) :
    (hostRename st hostname canonical).knownHosts =
      ((st.aliasesForHost hostname).getD []).foldl (fun m al => upd m al canonical)
        (if (st.knownHosts canonical).isNone then upd st.knownHosts canonical canonical
         else st.knownHosts) ∧
    (hostRename st hostname canonical).knownIPs =
      ((st.ipsForHost hostname).getD []).foldl (fun m ip => upd m ip canonical)
        st.knownIPs ∧
    (hostRename st hostname canonical).considering = st.considering ∧
    (hostRename st hostname canonical).badDNS = st.badDNS ∧
    (hostRename st hostname canonical).dnsLog = st.dnsLog ∧
    (hostRename st hostname canonical).countryLog = st.countryLog ∧
    (hostRename st hostname canonical).countriesForIPs = st.countriesForIPs ∧
    (hostRename st hostname canonical).probeLog = st.probeLog := by
  refine ⟨?_, ?_, ?_, ?_, ?_, ?_, ?_, ?_⟩ <;>
    (simp only [hostRename]; repeat' split) <;> rfl

theorem inv_updKnown (base : SpiderState) (nn canonical : String)
    (hinv : SpiderInv base) (hcan : (base.knownHosts canonical).isSome) :
    SpiderInv { base with knownHosts := upd base.knownHosts nn canonical } := by
  obtain ⟨h1, h2, h3, h4, h5, h6, h7⟩ := hinv
  refine ⟨?_, ?_, h3, h4, h5, h6, ?_⟩
  · intro h c hcc
    dsimp only at hcc ⊢
    by_cases hh : h = nn
    · subst hh
      rw [upd_self] at hcc
      cases hcc
      exact upd_isSome _ _ _ _ hcan
    · rw [upd_other _ _ _ _ hh] at hcc
      exact upd_isSome _ _ _ _ (h1 h c hcc)
  · intro ip c hcc
    dsimp only at hcc ⊢
    exact upd_isSome _ _ _ _ (h2 ip c hcc)
  · intro h hm
    dsimp only at hm ⊢
    exact upd_isSome _ _ _ _ (h7 h hm)

theorem inv_hostRename (st : SpiderState) (hostname canonical : String)
    (hinv : SpiderInv st) :
    SpiderInv (hostRename st hostname canonical) ∧
    ((hostRename st hostname canonical).knownHosts canonical).isSome := by
  obtain ⟨h1, h2, h3, h4, h5, h6, h7⟩ := hinv
  obtain ⟨p1, p2, p3, p4, p5, p6, p7, p8⟩ := hostRename_proj st hostname canonical
  set als := (st.aliasesForHost hostname).getD [] with hals
  set ips := (st.ipsForHost hostname).getD [] with hips
  set K1 := (if (st.knownHosts canonical).isNone then
    upd st.knownHosts canonical canonical else st.knownHosts) with hK1
  have hK1can : (K1 canonical).isSome := by
    rw [hK1]
    by_cases hn : (st.knownHosts canonical).isNone
    · rw [if_pos hn, upd_self]
      rfl
    · rw [if_neg hn]
      cases hopt : st.knownHosts canonical with
      | none => exact absurd (by rw [hopt]; rfl) hn
      | some v => rfl
  have hK1mono : ∀ x, (st.knownHosts x).isSome → (K1 x).isSome := by
    intro x hx
    rw [hK1]
    by_cases hn : (st.knownHosts canonical).isNone
    · rw [if_pos hn]
      exact upd_isSome _ _ _ _ hx
    · rw [if_neg hn]
      exact hx
  have hK2 : ∀ x, (hostRename st hostname canonical).knownHosts x =
      if x ∈ als then some canonical else K1 x := by
    intro x
    rw [p1]
    exact foldl_upd_const als K1 canonical x
  have hK2can : ((hostRename st hostname canonical).knownHosts canonical).isSome := by
    rw [hK2]
    by_cases hm : canonical ∈ als
    · rw [if_pos hm]
      rfl
    · rw [if_neg hm]
      exact hK1can
  have hK2mono : ∀ x, (st.knownHosts x).isSome →
      ((hostRename st hostname canonical).knownHosts x).isSome := by
    intro x hx
    rw [hK2]
    by_cases hm : x ∈ als
    · rw [if_pos hm]
      rfl
    · rw [if_neg hm]
      exact hK1mono x hx
  refine ⟨⟨?_, ?_, by rw [p5]; exact h3, ?_, ?_, ?_, ?_⟩, hK2can⟩
  · intro h c hcc
    rw [hK2] at hcc
    by_cases hm : h ∈ als
    · rw [if_pos hm] at hcc
      cases hcc
      exact hK2can
    · rw [if_neg hm] at hcc
      rw [hK1] at hcc
      by_cases hn : (st.knownHosts canonical).isNone
      · rw [if_pos hn] at hcc
        by_cases hh : h = canonical
        · subst hh
          rw [upd_self] at hcc
          cases hcc
          exact hK2can
        · rw [upd_other _ _ _ _ hh] at hcc
          exact hK2mono c (h1 h c hcc)
      · rw [if_neg hn] at hcc
        exact hK2mono c (h1 h c hcc)
  · intro ip c hcc
    rw [p2, foldl_upd_const] at hcc
    by_cases hm : ip ∈ ips
    · rw [if_pos hm] at hcc
      cases hcc
      exact hK2can
    · rw [if_neg hm] at hcc
      exact hK2mono c (h2 ip c hcc)
  · intro h hm
    rw [p5] at hm
    rw [p3]
    exact h4 h hm
  · intro h hb
    rw [p4] at hb
    rw [p3]
    exact h5 h hb
  · intro ip hm
    rw [p6] at hm
    rw [p7]
    exact h6 ip hm
  · intro h hm
    rw [p8] at hm
    exact hK2mono h (h7 h hm)

theorem inv_processHostOk (st : SpiderState) (hostname : String) (node : SksNode)
    (hinv : SpiderInv st) (hkey : (st.knownHosts hostname).isSome) :
    SpiderInv (processHostOk st hostname node) := by
  simp only [processHostOk]
  cases hoh : settingsGet node.Settings "Hostname" with
  | none =>
      dsimp only [Option.getD]
      cases hnn : settingsGet node.Settings "Nodename" with
      | none =>
          exact inv_transfer st _ rfl rfl rfl rfl rfl rfl rfl rfl hinv
      | some nn =>
          dsimp only
          by_cases hcnd : nn ≠ hostname ∧ nn ≠ ""
          · rw [if_pos hcnd]
            by_cases hkn : (st.knownHosts nn).isNone
            · rw [if_pos hkn]
              exact inv_transfer { st with knownHosts := upd st.knownHosts nn hostname } _
                rfl rfl rfl rfl rfl rfl rfl rfl (inv_updKnown st nn hostname hinv hkey)
            · rw [if_neg hkn]
              exact inv_transfer st _ rfl rfl rfl rfl rfl rfl rfl rfl hinv
          · rw [if_neg hcnd]
            exact inv_transfer st _ rfl rfl rfl rfl rfl rfl rfl rfl hinv
  | some oh =>
      dsimp only [Option.getD]
      by_cases hsame : oh = hostname
      · simp only [if_pos hsame]
        cases hnn : settingsGet node.Settings "Nodename" with
        | none =>
            exact inv_transfer st _ rfl rfl rfl rfl rfl rfl rfl rfl hinv
        | some nn =>
            dsimp only
            by_cases hcnd : nn ≠ hostname ∧ nn ≠ oh
            · rw [if_pos hcnd]
              by_cases hkn : (st.knownHosts nn).isNone
              · rw [if_pos hkn]
                exact inv_transfer { st with knownHosts := upd st.knownHosts nn hostname } _
                  rfl rfl rfl rfl rfl rfl rfl rfl (inv_updKnown st nn hostname hinv hkey)
              · rw [if_neg hkn]
                exact inv_transfer st _ rfl rfl rfl rfl rfl rfl rfl rfl hinv
            · rw [if_neg hcnd]
              exact inv_transfer st _ rfl rfl rfl rfl rfl rfl rfl rfl hinv
      · simp only [if_neg hsame]
        obtain ⟨inv1, hcan⟩ := inv_hostRename st hostname oh hinv
        cases hnn : settingsGet node.Settings "Nodename" with
        | none =>
            exact inv_transfer (hostRename st hostname oh) _
              rfl rfl rfl rfl rfl rfl rfl rfl inv1
        | some nn =>
            dsimp only
            by_cases hcnd : nn ≠ oh ∧ nn ≠ oh
            · rw [if_pos hcnd]
              by_cases hkn : ((hostRename st hostname oh).knownHosts nn).isNone
              · rw [if_pos hkn]
                exact inv_transfer
                  { hostRename st hostname oh with
                    knownHosts := upd (hostRename st hostname oh).knownHosts nn oh } _
                  rfl rfl rfl rfl rfl rfl rfl rfl
                  (inv_updKnown (hostRename st hostname oh) nn oh inv1 hcan)
              · rw [if_neg hkn]
                exact inv_transfer (hostRename st hostname oh) _
                  rfl rfl rfl rfl rfl rfl rfl rfl inv1
            · rw [if_neg hcnd]
              exact inv_transfer (hostRename st hostname oh) _
                rfl rfl rfl rfl rfl rfl rfl rfl inv1

theorem inv_processHostResult (st : SpiderState) (hr : HostResult)
    (hinv : SpiderInv st) (hkey : (st.knownHosts hr.hostname).isSome) :
    SpiderInv (processHostResult st hr) := by
  simp only [processHostResult]
  cases herr : hr.err with
  | some e => exact inv_transfer st _ rfl rfl rfl rfl rfl rfl rfl rfl hinv
  | none =>
      cases hn : hr.node with
      | none => exact hinv
      | some node => exact inv_processHostOk st hr.hostname node hinv hkey

theorem inv_processCountryResult (st : SpiderState) (cr : CountryResult)
    (hinv : SpiderInv st) : SpiderInv (processCountryResult st cr) := by
  obtain ⟨h1, h2, h3, h4, h5, h6, h7⟩ := hinv
  simp only [processCountryResult]
  cases herr : cr.err with
  | none =>
      refine ⟨h1, h2, h3, h4, h5, ?_, h7⟩
      intro ip hm
      dsimp only at hm ⊢
      exact upd_isSome _ _ _ _ (h6 ip hm)
  | some e => exact ⟨h1, h2, h3, h4, h5, h6, h7⟩

theorem contains_mem {l : List String} {x : String} (h : l.contains x = true) : x ∈ l := by
  simpa using h

theorem inv_spiderStep (cfg : SpiderConfig) (st : SpiderState) (msg : SpiderMsg)
    (hinv : SpiderInv st) (hok : msgOK st msg = true) :
    SpiderInv (spiderStep cfg st msg) := by
  cases msg with
  | batchAdd req =>
      simp only [spiderStep]
      exact foldl_pres SpiderInv req.hostnames st hinv
        (fun s2 x _ hq => inv_considerHost cfg s2 x req hq)
  | dnsRes r =>
      simp only [spiderStep]
      have hc : st.considering r.hostname = true := by
        obtain ⟨_, _, _, h4, _, _, _⟩ := hinv
        exact h4 r.hostname (contains_mem (by simpa [msgOK] using hok))
      exact inv_transfer (processDnsResult cfg st r) _
        rfl rfl rfl rfl rfl rfl rfl rfl (inv_processDnsResult cfg st r hinv hc)
  | hostRes r =>
      simp only [spiderStep]
      have hk : (st.knownHosts r.hostname).isSome := by
        obtain ⟨_, _, _, _, _, _, h7⟩ := hinv
        have hm : st.probeLog.contains r.hostname = true := by
          simp only [msgOK, Bool.and_eq_true] at hok
          exact hok.1
        exact h7 r.hostname (contains_mem hm)
      exact inv_transfer (processHostResult st r) _
        rfl rfl rfl rfl rfl rfl rfl rfl (inv_processHostResult st r hinv hk)
  | countryRes r =>
      simp only [spiderStep]
      exact inv_transfer (processCountryResult st r) _
        rfl rfl rfl rfl rfl rfl rfl rfl (inv_processCountryResult st r hinv)
  | terminate => exact hinv

/-- Every reachable spider state satisfies the inductive invariant. -/
theorem spiderInv_reach (cfg : SpiderConfig) (st : SpiderState)
    (h : SpiderReach cfg st) : SpiderInv st := by
  induction h with
  | init => exact spiderInv_initial
  | step st2 msg h2 hok ih => exact inv_spiderStep cfg st2 msg ih hok

/-! ## Reachability of concrete states -/

theorem reach_of_runOK (cfg : SpiderConfig) (msgs : List SpiderMsg) (st : SpiderState)
    (h : SpiderReach cfg st) (hok : runOK cfg st msgs = true) :
    SpiderReach cfg (runSpider cfg st msgs) := by
  induction msgs generalizing st with
  | nil => exact h
  | cons m rest ih =>
      simp only [runOK, Bool.and_eq_true] at hok
      exact ih (spiderStep cfg st m) (SpiderReach.step st m h hok.1) hok.2

theorem reach_stateC1 : SpiderReach cfgFree stateC1 :=
  reach_of_runOK cfgFree traceC1 initialSpider SpiderReach.init (by decide)

theorem reach_stateC5 : SpiderReach cfgFree stateC5 :=
  reach_of_runOK cfgFree traceC5 initialSpider SpiderReach.init (by decide)

theorem reach_stateC4 : SpiderReach cfgPriv stateC4 :=
  reach_of_runOK cfgPriv traceC4 initialSpider SpiderReach.init (by decide)

theorem reach_stateC10 : SpiderReach cfgFree stateC10 :=
  reach_of_runOK cfgFree traceC10 initialSpider SpiderReach.init (by decide)

/-! ## Claim C1 -/

/-- C1 (counterexample): the claimed invariant is false.  In the reachable
state `stateC1` (two hosts sharing an IP, then a probe of the first
reporting the second as its own hostname), `knownHosts` maps
`a.example.com` to `b.example.com` and `b.example.com` back to
`a.example.com` — `knownHosts[knownHosts[h]] ≠ knownHosts[h]` — and
`aliasesForHost` has no entry under `a.example.com` at all, so
`b.example.com ∉ aliasesForHost[knownHosts[b.example.com]]`. -/
theorem c1_counterexample :
    SpiderReach cfgFree stateC1 ∧
    stateC1.knownHosts "a.example.com" = some "b.example.com" ∧
    stateC1.knownHosts "b.example.com" = some "a.example.com" ∧
    "b.example.com" ≠ "a.example.com" ∧
    stateC1.aliasesForHost "a.example.com" = none :=
  ⟨reach_stateC1, by decide, by decide, by decide, by decide⟩

/-- C1 (amended): after every spider transition, every value `c` of
`knownHosts` is itself a key of `knownHosts` (but `knownHosts[c]` need not
equal `c`, and `h` need not appear in `aliasesForHost[c]`: the alias-merge
path of `processDnsResult` and the `Nodename` path of `processHostResult`
never touch `aliasesForHost`, and a rename onto an existing alias breaks
the fixpoint). -/
theorem c1_amended (cfg : SpiderConfig) (st : SpiderState) (h : SpiderReach cfg st) :
    ∀ a c, st.knownHosts a = some c → (st.knownHosts c).isSome :=
  (spiderInv_reach cfg st h).1

/-- C1 (amended) at a concrete reachable state. -/
theorem c1_amended_witness :
    (stateC10.knownHosts "a.example.com").isSome = true :=
  c1_amended cfgFree stateC10 reach_stateC10 "a.example.com" "a.example.com" (by decide)

/-! ## Claim C5 -/

/-- C5 (counterexample): in the reachable state `stateC5`,
`c.example.com` (whose DNS lookup failed) lies in both `considering` and
`badDNS`, so the two sets are not disjoint (`considering` is never pruned);
moreover `b.example.com` is a `knownHosts` key that was never considered
(it entered as a probe-reported self-hostname). -/
theorem c5_counterexample :
    SpiderReach cfgFree stateC5 ∧
    stateC5.considering "c.example.com" = true ∧
    stateC5.badDNS "c.example.com" = true ∧
    stateC5.knownHosts "b.example.com" = some "b.example.com" ∧
    stateC5.considering "b.example.com" = false :=
  ⟨reach_stateC5, by decide, by decide, by decide, by decide⟩

/-- C5 (amended): after every spider transition, `badDNS ⊆ considering`
(their intersection is exactly `badDNS`, nonempty after any failed
resolution), and no hostname is handed to a DNS worker more than once per
crawl (the ghost spawn log has no duplicates). -/
theorem c5_amended (cfg : SpiderConfig) (st : SpiderState) (h : SpiderReach cfg st) :
    (∀ a, st.badDNS a = true → st.considering a = true) ∧ st.dnsLog.Nodup :=
  ⟨(spiderInv_reach cfg st h).2.2.2.2.1, (spiderInv_reach cfg st h).2.2.1⟩

/-- C5 (amended) at a concrete reachable state. -/
theorem c5_amended_witness :
    stateC5.considering "c.example.com" = true ∧ stateC5.dnsLog.Nodup :=
  ⟨(c5_amended cfgFree stateC5 reach_stateC5).1 "c.example.com" (by decide),
   (c5_amended cfgFree stateC5 reach_stateC5).2⟩

/-! ## Claim C10 -/

/-- C10: a country result carrying an error leaves the spider state
unchanged (`processCountryResult` is the identity), so the empty-string
placeholder written when the lookup was spawned is kept, and every IP ever
enqueued for a country lookup has an entry in `countriesForIPs` in every
reachable state; the only other write to `countriesForIPs` is the
successful-lookup branch. -/
theorem c10_country_error :
    (∀ (st : SpiderState) (cr : CountryResult) (e : String), cr.err = some e →
        processCountryResult st cr = st) ∧
    (∀ (cfg : SpiderConfig) (st : SpiderState), SpiderReach cfg st →
        ∀ ip, ip ∈ st.countryLog → (st.countriesForIPs ip).isSome) := by
  constructor
  · intro st cr e he
    simp only [processCountryResult, he]
  · intro cfg st h ip hm
    exact (spiderInv_reach cfg st h).2.2.2.2.2.1 ip hm

/-- C10 at a concrete input: an errored country result for `1.2.3.4` is a
no-op on `stateC10`, whose `countriesForIPs` holds the placeholder. -/
theorem c10_country_error_witness :
    processCountryResult stateC10 ⟨"1.2.3.4", "", some "lookup failed"⟩ = stateC10 ∧
    (stateC10.countriesForIPs "1.2.3.4").isSome = true :=
  ⟨c10_country_error.1 stateC10 ⟨"1.2.3.4", "", some "lookup failed"⟩ "lookup failed" rfl,
   c10_country_error.2 cfgFree stateC10 reach_stateC10 "1.2.3.4" (by decide)⟩

/-! ## Claim C3 -/

/-- C3: receiving on the `terminate` channel does not stop the event loop.
The `break` in the `terminate` case of `spiderMainLoop` binds to the
enclosing `select`, not the `for`, so the iteration is a no-op on the state
and the loop keeps processing: after a `terminate` message, a subsequent
`addHost` message is still fully processed (here `x.example.com` enters
`considering`). -/
theorem c3_terminate_bug :
    (∀ (cfg : SpiderConfig) (st : SpiderState), spiderStep cfg st .terminate = st) ∧
    (runSpider cfgFree initialSpider
        [.terminate, .batchAdd ⟨["x.example.com"], 0, ""⟩]).considering "x.example.com"
      = true := by
  constructor
  · intro cfg st
    rfl
  · decide

/-! ## Claim C4 -/

theorem dnsScan_hits_disallowed (cfg : SpiderConfig) (st : SpiderState)
    (hostname : String) (ipList : List String) :
    ∀ (l1 : List String) (bad : String) (l2 : List String),
      cfg.ipDisallowed bad = true →
      (∀ ip ∈ l1, cfg.ipDisallowed ip = false ∧ st.knownIPs ip = none) →
      dnsScan cfg st hostname ipList (l1 ++ bad :: l2) =
        { st with badDNS := setAdd st.badDNS hostname } := by
  intro l1
  induction l1 with
  | nil =>
      intro bad l2 hbad _
      simp only [List.nil_append, dnsScan]
      rw [if_pos hbad]
  | cons a l1 ih =>
      intro bad l2 hbad hl1
      have ha := hl1 a (by simp)
      simp only [List.cons_append, dnsScan]
      rw [if_neg (by simp [ha.1]), ha.2]
      exact ih bad l2 hbad (fun ip hip => hl1 ip (by simp [hip]))

/-- C4 (amended): if, in the deduplicated returned IP list, a disallowed IP
occurs before any IP already present in `knownIPs` (in particular whenever
no returned IP is known), then the hostname is added to `badDNS` and
nothing else changes — in particular `knownHosts`, `knownIPs` and
`ipsForHost` are untouched.  (The unamended claim is false: the per-IP scan
returns as soon as it meets a known IP, so a known IP occurring earlier
wins and the disallowed IP is never examined — see the counterexample.) -/
theorem c4_amended (cfg : SpiderConfig) (st : SpiderState) (dns : DnsResult)
    (l1 l2 : List String) (bad : String)
    (he : dns.err = none)
    (hsplit : flattenIPs [dns.ipList] = l1 ++ bad :: l2)
    (hbad : cfg.ipDisallowed bad = true)
    (hl1 : ∀ ip ∈ l1, cfg.ipDisallowed ip = false ∧ st.knownIPs ip = none) :
    processDnsResult cfg st dns = { st with badDNS := setAdd st.badDNS dns.hostname } := by
  simp only [processDnsResult, he, Option.isSome_none, Bool.false_eq_true, if_false]
  rw [hsplit]
  exact dnsScan_hits_disallowed cfg st dns.hostname _ l1 bad l2 hbad hl1

/-- C4 (amended) at a concrete input: a DNS answer consisting of one
disallowed IP sends the hostname straight to `badDNS`. -/
theorem c4_amended_witness :
    processDnsResult cfgPriv initialSpider ⟨"b.example.com", ["10.0.0.1"], none⟩ =
      { initialSpider with badDNS := setAdd initialSpider.badDNS "b.example.com" } :=
  c4_amended cfgPriv initialSpider ⟨"b.example.com", ["10.0.0.1"], none⟩ [] []
    "10.0.0.1" rfl (by decide) (by decide) (by decide)

/-- C4 (counterexample): the claim as stated is false.  In `stateC4` the
DNS answer for `b.example.com` listed the already known `5.6.7.8` before
the disallowed `10.0.0.1`; the code merged the host as an alias of
`a.example.com` (changing `knownHosts`) and never added it to `badDNS`,
although a disallowed IP is in the deduplicated list. -/
theorem c4_counterexample :
    SpiderReach cfgPriv stateC4 ∧
    cfgPriv.ipDisallowed "10.0.0.1" = true ∧
    "10.0.0.1" ∈ flattenIPs [["5.6.7.8", "10.0.0.1"]] ∧
    stateC4.badDNS "b.example.com" = false ∧
    stateC4.knownHosts "b.example.com" = some "a.example.com" :=
  ⟨reach_stateC4, by decide, by decide, by decide, by decide⟩

theorem contains_iff_memS (l : List String) (x : String) : l.contains x = true ↔ x ∈ l := by
  simp

theorem considerSkip_iff (cfg : SpiderConfig) (st : SpiderState) (hostname : String) :
    considerSkip cfg st hostname = true ↔
      (st.considering hostname = true ∨ st.badDNS hostname = true ∨
       (st.knownHosts hostname).isSome = true ∨ cfg.blacklistedHosts hostname = true ∨
       cfg.parsesAsIP hostname = true ∨ ¬(hostname.data.contains '.' = true) ∨
       strHasSub hostname "pool." = true ∨ strEndsIn hostname ".local" = true ∨
       hostname ∈ cfg.blacklistedQueryHosts) := by
  unfold considerSkip
  simp only [Bool.or_eq_true, Bool.not_eq_true', Bool.eq_false_iff, contains_iff_memS]
  tauto

/-! ## Claim C8 -/

/-- C8: `considerHost` rejects a hostname (no DNS worker spawned, so it is
never probed, and `considering` is untouched) exactly when it is already in
`considering`, `badDNS` or `knownHosts`, is on the static blacklist, parses
as a bare IP literal, contains no dot, contains the substring `pool.`, ends
in `.local`, or equals a static do-not-query hostname; otherwise it is
inserted into `considering`, its computed distance is recorded, and exactly
one DNS worker is spawned. -/
theorem c8_consider_policy (cfg : SpiderConfig) (st : SpiderState) (hostname : String)
    (req : HostsRequest) :
    ((st.considering hostname = true ∨ st.badDNS hostname = true ∨
      (st.knownHosts hostname).isSome = true ∨ cfg.blacklistedHosts hostname = true ∨
      cfg.parsesAsIP hostname = true ∨ ¬(hostname.data.contains '.' = true) ∨
      strHasSub hostname "pool." = true ∨ strEndsIn hostname ".local" = true ∨
      hostname ∈ cfg.blacklistedQueryHosts) →
        (considerHost cfg st hostname req).dnsLog = st.dnsLog ∧
        (considerHost cfg st hostname req).probeLog = st.probeLog ∧
        (considerHost cfg st hostname req).considering = st.considering) ∧
    (¬(st.considering hostname = true ∨ st.badDNS hostname = true ∨
      (st.knownHosts hostname).isSome = true ∨ cfg.blacklistedHosts hostname = true ∨
      cfg.parsesAsIP hostname = true ∨ ¬(hostname.data.contains '.' = true) ∨
      strHasSub hostname "pool." = true ∨ strEndsIn hostname ".local" = true ∨
      hostname ∈ cfg.blacklistedQueryHosts) →
        (considerHost cfg st hostname req).considering hostname = true ∧
        (considerHost cfg st hostname req).distances hostname =
          some (considerDistance st req) ∧
        (considerHost cfg st hostname req).dnsLog = st.dnsLog ++ [hostname]) := by
  have hfe := considerPromote_fields st hostname (considerDistance st req)
  have hs : considerSkip cfg (considerPromote st hostname (considerDistance st req))
      hostname = considerSkip cfg st hostname := by
    unfold considerSkip
    rw [hfe]
  constructor
  · intro hrej
    have hb : considerSkip cfg (considerPromote st hostname (considerDistance st req))
        hostname = true := by
      rw [hs]
      exact (considerSkip_iff cfg st hostname).mpr hrej
    simp only [considerHost]
    rw [if_pos hb]
    refine ⟨?_, ?_, ?_⟩ <;> (dsimp only; rw [hfe])
  · intro hrej
    have hb : considerSkip cfg (considerPromote st hostname (considerDistance st req))
        hostname = false := by
      rw [hs]
      exact Bool.eq_false_iff.mpr (fun hh => hrej ((considerSkip_iff cfg st hostname).mp hh))
    simp only [considerHost]
    rw [if_neg (by simp [hb])]
    refine ⟨?_, ?_, ?_⟩
    · dsimp only
      simp [setAdd]
    · dsimp only
      rw [upd_self]
    · dsimp only
      rw [hfe]

/-! ## Claim C9 -/

theorem hostRename_distance_max (st : SpiderState) (hostname canonical : String)
    (dc dh : Int) (hdc : st.distances canonical = some dc)
    (hdh : st.distances hostname = some dh) :
    (hostRename st hostname canonical).distances canonical = some (max dc dh) := by
  simp only [hostRename]
  by_cases hk : ((st.knownHosts canonical).isNone : Prop)
  all_goals simp only [hk, eq_self_iff_true, Bool.false_eq_true, if_true, if_false]
  all_goals {
    by_cases hf : ((st.ipsForHost canonical).isNone : Prop)
    all_goals simp only [hf, eq_self_iff_true, Bool.false_eq_true, if_true, if_false]
    all_goals {
      rw [hdc]
      try dsimp only
      rw [hdh]
      dsimp only [Option.getD]
      by_cases hlt : dc < dh
      · rw [if_pos hlt]
        try dsimp only
        rw [upd_self]
        rw [max_eq_right (le_of_lt hlt)]
      · rw [if_neg hlt]
        try dsimp only
        rw [hdc, max_eq_left (le_of_not_lt hlt)]
    }
  }

/-- C9: when an error-free probe result reveals a self-reported canonical
hostname different from the queried one and both have recorded distances,
the distance stored under the canonical afterwards is the maximum of the
two. -/
theorem c9_distance_rename (st : SpiderState) (hr : HostResult) (node : SksNode)
    (oh : String) (dc dh : Int)
    (herr : hr.err = none) (hnode : hr.node = some node)
    (hoh : settingsGet node.Settings "Hostname" = some oh) (hne : oh ≠ hr.hostname)
    (hdc : st.distances oh = some dc) (hdh : st.distances hr.hostname = some dh) :
    (processHostResult st hr).distances oh = some (max dc dh) := by
  simp only [processHostResult, herr, hnode]
  simp only [processHostOk, hoh]
  simp only [if_neg hne]
  cases hnn : settingsGet node.Settings "Nodename" with
  | none =>
      dsimp only
      exact hostRename_distance_max st hr.hostname oh dc dh hdc hdh
  | some nn =>
      dsimp only [Option.getD]
      by_cases hcnd : nn ≠ oh ∧ nn ≠ oh
      · rw [if_pos hcnd]
        by_cases hkn : (((hostRename st hr.hostname oh).knownHosts nn).isNone : Prop)
        · rw [if_pos hkn]
          exact hostRename_distance_max st hr.hostname oh dc dh hdc hdh
        · rw [if_neg hkn]
          exact hostRename_distance_max st hr.hostname oh dc dh hdc hdh
      · rw [if_neg hcnd]
        exact hostRename_distance_max st hr.hostname oh dc dh hdc hdh


/-- C8 at concrete inputs: one accepted hostname (worker spawned) and one
rejected unqualified hostname (no worker). -/
theorem c8_consider_policy_witness :
    (considerHost cfgFree initialSpider "a.example.com"
        ⟨["a.example.com"], 0, ""⟩).dnsLog = ["a.example.com"] ∧
    (considerHost cfgFree initialSpider "nodot" ⟨["nodot"], 0, ""⟩).dnsLog = [] := by
  constructor
  · exact ((c8_consider_policy cfgFree initialSpider "a.example.com"
      ⟨["a.example.com"], 0, ""⟩).2 (by decide)).2.2
  · exact ((c8_consider_policy cfgFree initialSpider "nodot" ⟨["nodot"], 0, ""⟩).1
      (by decide)).1

/-- C9 at a concrete input: the queried host at distance 5, the canonical
at distance 3; afterwards the canonical sits at `max 3 5 = 5`. -/
theorem c9_distance_rename_witness :
    (processHostResult
        { initialSpider with
          distances := upd (upd initialSpider.distances "a.example.com" 5)
            "b.example.com" 3 }
        ⟨"a.example.com", some nodeSelfB, none⟩).distances "b.example.com" =
      some (max 3 5) :=
  c9_distance_rename _ ⟨"a.example.com", some nodeSelfB, none⟩ nodeSelfB
    "b.example.com" 3 5 rfl rfl (by decide) (by decide) (by decide) (by decide)

theorem alGet_alSet_self {α β : Type} [DecidableEq α] (m : List (α × β))
    (k : α) (v : β) : alGet (alSet m k v) k = some v := by
  induction m with
  | nil => simp [alSet, alGet]
  | cons kv rest ih =>
      obtain ⟨k2, v2⟩ := kv
      by_cases hk : k2 = k
      · simp [alSet, alGet, hk]
      · simp [alSet, alGet, hk, ih]

theorem alGet_alSet_other {α β : Type} [DecidableEq α] (m : List (α × β))
    (k x : α) (v : β) (h : x ≠ k) : alGet (alSet m k v) x = alGet m x := by
  induction m with
  | nil =>
      simp only [alSet, alGet]
      rw [if_neg (fun hh => h hh.symm)]
  | cons kv rest ih =>
      obtain ⟨k2, v2⟩ := kv
      simp only [alSet]
      by_cases hk : k2 = k
      · rw [if_pos hk]
        simp only [alGet]
        have hx : ¬ k2 = x := fun hh => h (hh ▸ hk)
        rw [if_neg hx, if_neg hx]
      · rw [if_neg hk]
        simp only [alGet]
        by_cases hx2 : k2 = x
        · rw [if_pos hx2, if_pos hx2]
        · rw [if_neg hx2, if_neg hx2]
          exact ih

theorem mem_alKeys_alSet_self {α β : Type} [DecidableEq α] (m : List (α × β))
    (k : α) (v : β) : k ∈ alKeys (alSet m k v) :=
  isSome_mem_alKeys _ _ (by rw [alGet_alSet_self]; rfl)

theorem mem_alKeys_alSet_mono {α β : Type} [DecidableEq α] (m : List (α × β))
    (k x : α) (v : β) (h : x ∈ alKeys m) : x ∈ alKeys (alSet m k v) := by
  by_cases hx : x = k
  · subst hx
    exact mem_alKeys_alSet_self m x v
  · exact isSome_mem_alKeys _ _
      (by rw [alGet_alSet_other m k x v hx]; exact mem_alKeys_isSome m x h)

theorem mem_alKeys_alSet_cases {α β : Type} [DecidableEq α] (m : List (α × β))
    (k x : α) (v : β) (h : x ∈ alKeys (alSet m k v)) : x = k ∨ x ∈ alKeys m := by
  by_cases hx : x = k
  · exact Or.inl hx
  · refine Or.inr (isSome_mem_alKeys _ _ ?_)
    have := mem_alKeys_isSome _ _ h
    rwa [alGet_alSet_other m k x v hx] at this

theorem passIns_proj (b1 b2 b3 b4 : Bool) (kc : Int) (a : SelPass) (ip : String) :
    (passIns b1 b2 b3 b4 kc a ip).ipsAll = alSet a.ipsAll ip kc ∧
    (passIns b1 b2 b3 b4 kc a ip).ipsOne = a.ipsOne := by
  refine ⟨?_, ?_⟩ <;> (simp only [passIns]; repeat' split) <;> rfl

theorem passIns_fold (b1 b2 b3 b4 : Bool) (kc : Int) (Pf : Int → Prop) (hkc : Pf kc) :
    ∀ (l : List String) (a : SelPass),
      (∀ kv ∈ a.ipsAll, Pf kv.2) →
      (∀ kv ∈ (l.foldl (passIns b1 b2 b3 b4 kc) a).ipsAll, Pf kv.2) ∧
      (l.foldl (passIns b1 b2 b3 b4 kc) a).ipsOne = a.ipsOne ∧
      (∀ x, x ∈ alKeys a.ipsAll ∨ x ∈ l →
        x ∈ alKeys (l.foldl (passIns b1 b2 b3 b4 kc) a).ipsAll) := by
  intro l
  induction l with
  | nil =>
      intro a ha
      refine ⟨ha, rfl, ?_⟩
      intro x hx
      rcases hx with hx | hx
      · exact hx
      · simp at hx
  | cons ip l ih =>
      intro a ha
      simp only [List.foldl_cons]
      obtain ⟨e1, e2⟩ := passIns_proj b1 b2 b3 b4 kc a ip
      have ha2 : ∀ kv ∈ (passIns b1 b2 b3 b4 kc a ip).ipsAll, Pf kv.2 := by
        rw [e1]
        exact alSet_all a.ipsAll ip kc ha hkc
      obtain ⟨r1, r2, r3⟩ := ih (passIns b1 b2 b3 b4 kc a ip) ha2
      refine ⟨r1, r2.trans e2, ?_⟩
      intro x hx
      rcases hx with hx | hx
      · exact r3 x (Or.inl (by rw [e1]; exact mem_alKeys_alSet_mono _ _ _ _ hx))
      · rcases List.mem_cons.mp hx with hx | hx
        · subst hx
          exact r3 x (Or.inl (by rw [e1]; exact mem_alKeys_alSet_self _ _ _))
        · exact r3 x (Or.inr hx)

theorem selPass_vals (cfg : SelConfig) (q : Query) (P : PersistedState)
    (Pf : Int → Prop)
    (hP : ∀ kv ∈ P.HostMap, 1 < kv.2.Keycount → Pf kv.2.Keycount) :
    (∀ kv ∈ (selPass cfg q P).ipsOne, Pf kv.2) ∧
    (∀ kv ∈ (selPass cfg q P).ipsAll, Pf kv.2) ∧
    (∀ x ∈ alKeys (selPass cfg q P).ipsOne, x ∈ alKeys (selPass cfg q P).ipsAll) := by
  unfold selPass
  apply foldl_pres (fun acc : SelPass =>
    (∀ kv ∈ acc.ipsOne, Pf kv.2) ∧ (∀ kv ∈ acc.ipsAll, Pf kv.2) ∧
    (∀ x ∈ alKeys acc.ipsOne, x ∈ alKeys acc.ipsAll))
  · refine ⟨?_, ?_, ?_⟩ <;> intro kv hkv <;> simp [alKeys] at hkv
  · intro a name _ ha
    obtain ⟨ha1, ha2, ha3⟩ := ha
    simp only [passOne]
    cases hnode : alGet P.HostMap name with
    | none => exact ⟨ha1, ha2, ha3⟩
    | some node =>
        dsimp only
        by_cases hkc : node.Keycount ≤ 1
        · rw [if_pos hkc]
          exact ⟨ha1, ha2, ha3⟩
        · rw [if_neg hkc]
          cases hips : node.IpList with
          | nil => exact ⟨ha1, ha2, ha3⟩
          | cons ip0 rest =>
              dsimp only
              have hPf : Pf node.Keycount := hP (name, node) (alGet_mem _ _ _ hnode) (by show (1 : Int) < node.Keycount; omega)
              have hbase : ∀ kv ∈
                  ({ a with ipsOne := alSet a.ipsOne ip0 node.Keycount } : SelPass).ipsAll,
                  Pf kv.2 := ha2
              obtain ⟨r1, r2, r3⟩ := passIns_fold _ _ _ _ node.Keycount Pf hPf
                (ip0 :: rest) { a with ipsOne := alSet a.ipsOne ip0 node.Keycount } hbase
              refine ⟨?_, r1, ?_⟩
              · intro kv hkv
                rw [r2] at hkv
                exact alSet_all a.ipsOne ip0 node.Keycount ha1 hPf kv hkv
              · intro x hx
                rw [r2] at hx
                rcases mem_alKeys_alSet_cases _ _ _ _ hx with hx2 | hx2
                · subst hx2
                  exact r3 x (Or.inr (by simp))
                · exact r3 x (Or.inl (ha3 x hx2))

/-- C6 (amended): whenever the selector with `threshold=1` and no other
query parameters returns a valid response, the threshold is `1` and the
returned IPs are exactly the recorded IPs whose keycount lies within the
first-pass 5σ bounds and that are not `1.0.10`-skipped — where "recorded"
means the server survived the eligibility pass, which silently drops every
server with `keycount ≤ 1`, so "keycount ≥ 1" in the claim is wrong for
`keycount = 1`. -/
theorem c6_amended (cfg : SelConfig) (P : PersistedState) (ips : List String) (thr : Int)
    (h : selectorGo cfg qOv1 P = .valid ips thr) :
    thr = 1 ∧ ∀ ip, ip ∈ ips ↔
      ((∃ c, alGet (selPass cfg qOv1 P).ipsAll ip = some c ∧
          selBndMin cfg (selPass cfg qOv1 P)
            (alKeys (selBuckets cfg (selPass cfg qOv1 P))) ≤ c ∧
          c ≤ selBndMax cfg (selPass cfg qOv1 P)
            (alKeys (selBuckets cfg (selPass cfg qOv1 P)))) ∧
        ip ∉ (selPass cfg qOv1 P).skip1010) := by
  have hgt1 : ∀ kv ∈ (selPass cfg qOv1 P).ipsAll, (1 : Int) < kv.2 :=
    (selPass_vals cfg qOv1 P (fun v => 1 < v) (fun kv _ h2 => h2)).2.1
  simp only [selectorGo, selectorWithOrder] at h
  by_cases hbe : (selBuckets cfg (selPass cfg qOv1 P)).isEmpty = true
  · rw [if_pos hbe] at h
    exact absurd h (by simp)
  · rw [if_neg hbe] at h
    by_cases hsan : GoReal.ltb
        (selSecondMean cfg (selPass cfg qOv1 P)
          (alKeys (selBuckets cfg (selPass cfg qOv1 P))))
        (GoReal.ofInt cfg.keysSanityMin) = true
    · rw [if_pos hsan] at h
      exact absurd h (by simp)
    · rw [if_neg hsan] at h
      rw [show qOv1.thresholdOverride = some 1 from rfl] at h
      dsimp only at h
      rw [if_pos (by norm_num : (1 : Int) > 0)] at h
      have hflt : (selFirstIpsAll cfg (selPass cfg qOv1 P)
            (alKeys (selBuckets cfg (selPass cfg qOv1 P)))).filter
          (fun ip => decide ((alGet (selPass cfg qOv1 P).ipsAll ip).getD 0 ≥ 1)) =
          selFirstIpsAll cfg (selPass cfg qOv1 P)
            (alKeys (selBuckets cfg (selPass cfg qOv1 P))) := by
        apply List.filter_eq_self.mpr
        intro ip hip
        have hk : ip ∈ alKeys (selPass cfg qOv1 P).ipsAll :=
          (List.mem_filter.mp hip).1
        obtain ⟨c, hc⟩ := Option.isSome_iff_exists.mp (mem_alKeys_isSome _ _ hk)
        have hcv := hgt1 (ip, c) (alGet_mem _ _ _ hc)
        simp only [hc, Option.getD_some, ge_iff_le, decide_eq_true_eq]
        omega
      rw [hflt] at h
      by_cases h0 : (selFirstIpsAll cfg (selPass cfg qOv1 P)
          (alKeys (selBuckets cfg (selPass cfg qOv1 P)))).isEmpty = true
      · rw [if_pos h0] at h
        exact absurd h (by simp)
      · rw [if_neg h0] at h
        by_cases h1 : ((selFirstIpsAll cfg (selPass cfg qOv1 P)
            (alKeys (selBuckets cfg (selPass cfg qOv1 P)))).filter
            (fun ip => !((selPass cfg qOv1 P).skip1010.contains ip))).isEmpty = true
        · rw [if_pos h1] at h
          exact absurd h (by simp)
        · rw [if_neg h1] at h
          simp only [selAfter1010, selAfterVersion, selAfterCountries] at h
          rw [show qOv1.minimumVersion = (none : Option String) from rfl,
              show qOv1.limitToCountries = (none : Option (List String)) from rfl,
              show qOv1.limitToProxies = false from rfl] at h
          simp only [Bool.false_eq_true, if_false] at h
          obtain ⟨e_ips, e_thr⟩ := SelResult.valid.inj h
          refine ⟨e_thr.symm, ?_⟩
          intro ip
          rw [← e_ips]
          constructor
          · intro hm
            obtain ⟨hall, hsk⟩ := List.mem_filter.mp hm
            obtain ⟨hkeys, hinb⟩ := List.mem_filter.mp hall
            obtain ⟨c, hc⟩ := Option.isSome_iff_exists.mp (mem_alKeys_isSome _ _ hkeys)
            refine ⟨⟨c, hc, ?_, ?_⟩, ?_⟩
            · have := hinb
              simp only [selInB, hc, Option.getD_some, Bool.and_eq_true,
                decide_eq_true_eq] at this
              exact this.1
            · have := hinb
              simp only [selInB, hc, Option.getD_some, Bool.and_eq_true,
                decide_eq_true_eq] at this
              exact this.2
            · intro hmem
              have hcf : (selPass cfg qOv1 P).skip1010.contains ip = false := by
                simpa using hsk
              have hct := (contains_iff_memS _ _).mpr hmem
              rw [hcf] at hct
              exact Bool.noConfusion hct
          · intro hx
            obtain ⟨⟨c, hc, hmin, hmax⟩, hnsk⟩ := hx
            apply List.mem_filter.mpr
            constructor
            · apply List.mem_filter.mpr
              constructor
              · exact isSome_mem_alKeys _ _ (by rw [hc]; rfl)
              · simp only [selInB, hc, Option.getD_some, Bool.and_eq_true,
                  decide_eq_true_eq]
                exact ⟨hmin, hmax⟩
            · simp only [Bool.not_eq_true']
              exact Bool.eq_false_iff.mpr
                (fun hh => hnsk ((contains_iff_memS _ _).mp hh))

theorem sdSum_allK (l : List Int) (K : Int) (mean : GoReal)
    (hmn : mean.n = (l.length : Int) * K) (hmd : mean.d = l.length)
    (hl : ∀ x ∈ l, x = K) (hpos : 0 < l.length) :
    (sdSum l mean).n = 0 ∧ 0 < (sdSum l mean).d := by
  unfold sdSum
  have step : ∀ (g : GoReal) (v : Int), v ∈ l → g.n = 0 ∧ 0 < g.d →
      (g.add (((GoReal.ofInt v).sub mean).mul ((GoReal.ofInt v).sub mean))).n = 0 ∧
      0 < (g.add (((GoReal.ofInt v).sub mean).mul ((GoReal.ofInt v).sub mean))).d := by
    intro g v hv hg
    have hdiff : ((GoReal.ofInt v).sub mean).n = 0 := by
      simp only [GoReal.sub, GoReal.ofInt]
      rw [hl v hv, hmn, hmd]
      push_cast
      ring
    have hdiffd : ((GoReal.ofInt v).sub mean).d = l.length := by
      simp only [GoReal.sub, GoReal.ofInt]
      rw [hmd]
      exact Nat.one_mul _
    constructor
    · simp only [GoReal.add, GoReal.mul, hdiff, hg.1]
      ring
    · simp only [GoReal.add, GoReal.mul, hdiffd]
      exact Nat.mul_pos hg.2 (Nat.mul_pos hpos hpos)
  exact foldl_pres (fun g : GoReal => g.n = 0 ∧ 0 < g.d) l (GoReal.ofInt 0)
    ⟨rfl, Nat.one_pos⟩ step

theorem sdOf_allK (l : List Int) (K : Int) (hl : ∀ x ∈ l, x = K)
    (hpos : 0 < l.length) :
    ∃ d : Nat, 0 < d ∧ sdOf l (meanOf l) = ⟨0, d⟩ := by
  have hmean : (meanOf l).n = (l.length : Int) * K ∧ (meanOf l).d = l.length := by
    constructor
    · simp only [meanOf]
      exact sumInts_allK l K hl
    · rfl
  obtain ⟨hn0, hdp⟩ := sdSum_allK l K (meanOf l) hmean.1 hmean.2 hl hpos
  refine ⟨(sdSum l (meanOf l)).d * l.length, Nat.mul_pos hdp hpos, ?_⟩
  simp only [sdOf, GoReal.sqrt, hn0]
  norm_num
  rfl

theorem trunc_mean_sub_5sd (len d : Nat) (K : Int) (hlen : 0 < len) (hd : 0 < d) :
    ((⟨(len : Int) * K, len⟩ : GoReal).sub
      ((GoReal.ofInt 5).mul (⟨0, d⟩ : GoReal))).trunc = K := by
  simp only [GoReal.sub, GoReal.mul, GoReal.ofInt, GoReal.trunc]
  have hb : (0 : Int) < ((len * (1 * d) : Nat) : Int) := by
    exact_mod_cast Nat.mul_pos hlen (by simpa using hd)
  have hnum : (len : Int) * K * ((1 * d : Nat) : Int) - 5 * 0 * (len : Int) =
      K * ((len * (1 * d) : Nat) : Int) := by
    push_cast
    ring
  rw [hnum]
  exact Int.mul_tdiv_cancel _ (ne_of_gt hb)

theorem trunc_mean_add_5sd (len d : Nat) (K : Int) (hlen : 0 < len) (hd : 0 < d) :
    ((⟨(len : Int) * K, len⟩ : GoReal).add
      ((GoReal.ofInt 5).mul (⟨0, d⟩ : GoReal))).trunc = K := by
  simp only [GoReal.add, GoReal.mul, GoReal.ofInt, GoReal.trunc]
  have hb : (0 : Int) < ((len * (1 * d) : Nat) : Int) := by
    exact_mod_cast Nat.mul_pos hlen (by simpa using hd)
  have hnum : (len : Int) * K * ((1 * d : Nat) : Int) + 5 * 0 * (len : Int) =
      K * ((len * (1 * d) : Nat) : Int) := by
    push_cast
    ring
  rw [hnum]
  exact Int.mul_tdiv_cancel _ (ne_of_gt hb)

theorem plStep_good (bks : List (Int × List Int)) :
    ∀ (o : List Int) (acc : Int × Nat),
      (∀ k ∈ o, ∃ l, alGet bks k = some l ∧ l ≠ []) →
      (∃ l, alGet bks acc.1 = some l ∧ l.length = acc.2 ∧ 0 < acc.2) →
      ∃ l, alGet bks (o.foldl (plStep bks) acc).1 = some l ∧
        l.length = (o.foldl (plStep bks) acc).2 ∧ 0 < (o.foldl (plStep bks) acc).2 := by
  intro o
  induction o with
  | nil => intro acc _ hacc; exact hacc
  | cons k o ih =>
      intro acc ho hacc
      simp only [List.foldl_cons, plStep]
      by_cases hgt : ((alGet bks k).getD []).length > acc.2
      · rw [if_pos hgt]
        obtain ⟨l, hl, hlne⟩ := ho k (by simp)
        refine ih _ (fun k2 hk2 => ho k2 (by simp [hk2])) ⟨l, hl, ?_, ?_⟩
        · simp [hl]
        · simp only [hl, Option.getD_some]
          exact List.length_pos.mpr hlne
      · rw [if_neg hgt]
        exact ih acc (fun k2 hk2 => ho k2 (by simp [hk2])) hacc

theorem pickLargest_good (bks : List (Int × List Int)) (o : List Int)
    (hne : o ≠ []) (hkeys : ∀ k ∈ o, ∃ l, alGet bks k = some l ∧ l ≠ []) :
    ∃ l, alGet bks (pickLargest bks o).1 = some l ∧
      l.length = (pickLargest bks o).2 ∧ 0 < (pickLargest bks o).2 := by
  unfold pickLargest
  cases o with
  | nil => exact absurd rfl hne
  | cons k o =>
      simp only [List.foldl_cons, plStep]
      obtain ⟨l, hl, hlne⟩ := hkeys k (by simp)
      have hlen : 0 < ((alGet bks k).getD []).length := by
        rw [hl]
        simpa using List.length_pos.mpr hlne
      rw [if_pos (by simpa using hlen)]
      refine plStep_good bks o _ (fun k2 hk2 => hkeys k2 (by simp [hk2])) ⟨l, hl, ?_, hlen⟩
      simp [hl]

theorem selBuckets_allK (cfg : SelConfig) (p : SelPass) (K : Int)
    (hone : ∀ kv ∈ p.ipsOne, kv.2 = K) :
    ∀ kv ∈ selBuckets cfg p, (∀ x ∈ kv.2, x = K) ∧ kv.2 ≠ [] := by
  unfold selBuckets
  apply foldl_pres (fun b : List (Int × List Int) =>
    ∀ kv ∈ b, (∀ x ∈ kv.2, x = K) ∧ kv.2 ≠ [])
  · intro kv hkv
    simp at hkv
  · intro b kv hmem hb
    exact alApp_all b (Int.tdiv kv.2 cfg.bucketSize) kv.2 hb (hone kv hmem)

theorem selBuckets_ne_nil (cfg : SelConfig) (p : SelPass) (hne : p.ipsOne ≠ []) :
    selBuckets cfg p ≠ [] := by
  unfold selBuckets
  cases hi : p.ipsOne with
  | nil => exact absurd hi hne
  | cons kv rest =>
      simp only [List.foldl_cons]
      exact foldl_pres (fun b : List (Int × List Int) => b ≠ []) rest _
        (alApp_ne_nil _ _ _) (fun s2 x _ _ => alApp_ne_nil _ _ _)

/-- C7: on a uniform snapshot — every server of the host map reports the
same keycount `K` with `K > 1` and `K ≥ KEYS_SANITY_MIN`, at least one
server survives the eligibility pass and at least one of its IPs is not
excluded by the `1.0.10` filter — the selector with the empty query
returns threshold `K − KEYS_DAILY_JITTER` together with every recorded IP
that is not in the `skip_ips_1010` exclusion set: the single bucket is its
own mode, the first-pass standard deviation is `0`, the 5σ bounds collapse
to `[K, K]` and contain every server, and the second-pass index
`len − 2` of the sorted (all-`K`) count list is `K` with second-pass
deviation `0`. -/
theorem c7_uniform (cfg : SelConfig) (P : PersistedState) (K : Int)
    (hK1 : 1 < K) (hsan : cfg.keysSanityMin ≤ K) (hj : 0 ≤ cfg.keysDailyJitter)
    (hall : ∀ kv ∈ P.HostMap, kv.2.Keycount = K)
    (hne : (selPass cfg qEmpty P).ipsOne ≠ [])
    (hlex : (alKeys (selPass cfg qEmpty P).ipsAll).filter
        (fun ip => !((selPass cfg qEmpty P).skip1010.contains ip)) ≠ []) :
    selectorGo cfg qEmpty P =
      SelResult.valid
        ((alKeys (selPass cfg qEmpty P).ipsAll).filter
          (fun ip => !((selPass cfg qEmpty P).skip1010.contains ip)))
        (K - cfg.keysDailyJitter) := by
  obtain ⟨hone, hallv, hsubk⟩ :=
    selPass_vals cfg qEmpty P (fun v => v = K) (fun kv hm _ => hall kv hm)
  have hbk := selBuckets_allK cfg (selPass cfg qEmpty P) K hone
  have hbne := selBuckets_ne_nil cfg (selPass cfg qEmpty P) hne
  have hordne : alKeys (selBuckets cfg (selPass cfg qEmpty P)) ≠ [] := by
    cases hb : selBuckets cfg (selPass cfg qEmpty P) with
    | nil => exact absurd hb hbne
    | cons kv rest => simp [alKeys]
  have hkeys : ∀ k ∈ alKeys (selBuckets cfg (selPass cfg qEmpty P)),
      ∃ l, alGet (selBuckets cfg (selPass cfg qEmpty P)) k = some l ∧ l ≠ [] := by
    intro k hk
    obtain ⟨l, hl⟩ := Option.isSome_iff_exists.mp (mem_alKeys_isSome _ _ hk)
    exact ⟨l, hl, (hbk (k, l) (alGet_mem _ _ _ hl)).2⟩
  obtain ⟨ml, hml, hmlen, hmpos⟩ :=
    pickLargest_good (selBuckets cfg (selPass cfg qEmpty P))
      (alKeys (selBuckets cfg (selPass cfg qEmpty P))) hordne hkeys
  have hmlK : ∀ x ∈ ml, x = K :=
    (hbk (_, ml) (alGet_mem _ _ _ hml)).1
  have hmlpos : 0 < ml.length := by
    rw [hmlen]
    exact hmpos
  have hmode : selModeList cfg (selPass cfg qEmpty P)
      (alKeys (selBuckets cfg (selPass cfg qEmpty P))) = ml := by
    unfold selModeList
    rw [hml]
    rfl
  have hmean_eq : meanOf ml = (⟨(ml.length : Int) * K, ml.length⟩ : GoReal) := by
    unfold meanOf
    rw [sumInts_allK ml K hmlK]
  obtain ⟨d, hd, hsd_eq⟩ := sdOf_allK ml K hmlK hmlpos
  have hmin : selBndMin cfg (selPass cfg qEmpty P)
      (alKeys (selBuckets cfg (selPass cfg qEmpty P))) = K := by
    unfold selBndMin selFpSd selFpMean
    rw [hmode, hsd_eq, hmean_eq]
    exact trunc_mean_sub_5sd ml.length d K hmlpos hd
  have hmax : selBndMax cfg (selPass cfg qEmpty P)
      (alKeys (selBuckets cfg (selPass cfg qEmpty P))) = K := by
    unfold selBndMax selFpSd selFpMean
    rw [hmode, hsd_eq, hmean_eq]
    exact trunc_mean_add_5sd ml.length d K hmlpos hd
  have hinbK : selInB cfg (selPass cfg qEmpty P)
      (alKeys (selBuckets cfg (selPass cfg qEmpty P))) K = true := by
    unfold selInB
    rw [hmin, hmax]
    simp
  have hfi : selFirstIps cfg (selPass cfg qEmpty P)
      (alKeys (selBuckets cfg (selPass cfg qEmpty P))) =
      alKeys (selPass cfg qEmpty P).ipsOne := by
    unfold selFirstIps
    apply List.filter_eq_self.mpr
    intro ip hip
    obtain ⟨c, hc⟩ := Option.isSome_iff_exists.mp
      (mem_alKeys_isSome _ _ (hsubk ip hip))
    have hcK : c = K := hallv (ip, c) (alGet_mem _ _ _ hc)
    simp only [hc, Option.getD_some, hcK]
    exact hinbK
  have hfia : selFirstIpsAll cfg (selPass cfg qEmpty P)
      (alKeys (selBuckets cfg (selPass cfg qEmpty P))) =
      alKeys (selPass cfg qEmpty P).ipsAll := by
    unfold selFirstIpsAll
    apply List.filter_eq_self.mpr
    intro ip hip
    obtain ⟨c, hc⟩ := Option.isSome_iff_exists.mp (mem_alKeys_isSome _ _ hip)
    have hcK : c = K := hallv (ip, c) (alGet_mem _ _ _ hc)
    simp only [hc, Option.getD_some, hcK]
    exact hinbK
  have hvalsK : ∀ v ∈ selVals cfg (selPass cfg qEmpty P)
      (alKeys (selBuckets cfg (selPass cfg qEmpty P))), v = K := by
    intro v hv
    unfold selVals at hv
    rw [hfi] at hv
    obtain ⟨ip, hip, he⟩ := List.mem_map.mp hv
    obtain ⟨c, hc⟩ := Option.isSome_iff_exists.mp
      (mem_alKeys_isSome _ _ (hsubk ip hip))
    have hcK : c = K := hallv (ip, c) (alGet_mem _ _ _ hc)
    simp only [hc, Option.getD_some] at he
    rw [← he]
    exact hcK
  have hvlen : 0 < (selVals cfg (selPass cfg qEmpty P)
      (alKeys (selBuckets cfg (selPass cfg qEmpty P)))).length := by
    unfold selVals
    rw [hfi, List.length_map]
    cases hi : (selPass cfg qEmpty P).ipsOne with
    | nil => exact absurd hi hne
    | cons kv rest => simp [alKeys]
  have hsmean : selSecondMean cfg (selPass cfg qEmpty P)
      (alKeys (selBuckets cfg (selPass cfg qEmpty P))) =
      (⟨((selVals cfg (selPass cfg qEmpty P)
          (alKeys (selBuckets cfg (selPass cfg qEmpty P)))).length : Int) * K,
        (selVals cfg (selPass cfg qEmpty P)
          (alKeys (selBuckets cfg (selPass cfg qEmpty P)))).length⟩ : GoReal) := by
    unfold selSecondMean meanOf
    rw [sumInts_allK _ K hvalsK]
  have hsanb : GoReal.ltb (selSecondMean cfg (selPass cfg qEmpty P)
        (alKeys (selBuckets cfg (selPass cfg qEmpty P))))
      (GoReal.ofInt cfg.keysSanityMin) = false := by
    rw [hsmean]
    unfold GoReal.ltb GoReal.ofInt
    dsimp only
    apply decide_eq_false
    intro hcon
    have hL : (0 : Int) < ((selVals cfg (selPass cfg qEmpty P)
        (alKeys (selBuckets cfg (selPass cfg qEmpty P)))).length : Int) := by
      exact_mod_cast hvlen
    push_cast at hcon
    nlinarith [mul_le_mul_of_nonneg_left hsan (le_of_lt hL)]
  obtain ⟨d2, hd2, hsd2_eq⟩ := sdOf_allK _ K hvalsK hvlen
  have hthr : selThreshold cfg (selPass cfg qEmpty P)
      (alKeys (selBuckets cfg (selPass cfg qEmpty P))) = K - cfg.keysDailyJitter := by
    unfold selThreshold selSecondSd selSecondMean
    rw [hsd2_eq]
    have hsort := sortInts_allK _ K hvalsK
    rw [getD_allK _ K _ (by rw [hsort.2]; omega) hsort.1]
    show K - (cfg.keysDailyJitter + GoReal.trunc ⟨0, d2⟩) = K - cfg.keysDailyJitter
    unfold GoReal.trunc
    dsimp only
    rw [Int.zero_tdiv]
    ring
  have hips0 : (alKeys (selPass cfg qEmpty P).ipsAll).filter
      (fun ip => decide ((alGet (selPass cfg qEmpty P).ipsAll ip).getD 0 ≥
        K - cfg.keysDailyJitter)) = alKeys (selPass cfg qEmpty P).ipsAll := by
    apply List.filter_eq_self.mpr
    intro ip hip
    obtain ⟨c, hc⟩ := Option.isSome_iff_exists.mp (mem_alKeys_isSome _ _ hip)
    have hcK : c = K := hallv (ip, c) (alGet_mem _ _ _ hc)
    simp only [hc, Option.getD_some, hcK, ge_iff_le, decide_eq_true_eq]
    omega
  have hbemp : (selBuckets cfg (selPass cfg qEmpty P)).isEmpty = false := by
    cases hb : selBuckets cfg (selPass cfg qEmpty P) with
    | nil => exact absurd hb hbne
    | cons kv rest => rfl
  have hiane : (alKeys (selPass cfg qEmpty P).ipsAll).isEmpty = false := by
    cases hi : alKeys (selPass cfg qEmpty P).ipsAll with
    | nil =>
        exfalso
        cases hi2 : (selPass cfg qEmpty P).ipsOne with
        | nil => exact hne hi2
        | cons kv rest =>
            have hk1 : kv.1 ∈ alKeys (selPass cfg qEmpty P).ipsAll :=
              hsubk kv.1 (by rw [hi2]; simp [alKeys])
            rw [hi] at hk1
            simp at hk1
    | cons kv rest => rfl
  have h1ne : ((alKeys (selPass cfg qEmpty P).ipsAll).filter
      (fun ip => !((selPass cfg qEmpty P).skip1010.contains ip))).isEmpty = false := by
    cases hi : (alKeys (selPass cfg qEmpty P).ipsAll).filter
        (fun ip => !((selPass cfg qEmpty P).skip1010.contains ip)) with
    | nil => exact absurd hi hlex
    | cons kv rest => rfl
  simp only [selectorGo, selectorWithOrder]
  rw [if_neg (by rw [hbemp]; exact Bool.false_ne_true)]
  rw [if_neg (by rw [hsanb]; exact Bool.false_ne_true)]
  rw [show qEmpty.thresholdOverride = (none : Option Int) from rfl]
  dsimp only
  rw [hthr, hfia, hips0]
  rw [if_neg (by rw [hiane]; exact Bool.false_ne_true)]
  rw [if_neg (by rw [h1ne]; exact Bool.false_ne_true)]
  simp only [selAfter1010, selAfterVersion, selAfterCountries]
  rw [show qEmpty.minimumVersion = (none : Option String) from rfl,
      show qEmpty.limitToCountries = (none : Option (List String)) from rfl,
      show qEmpty.limitToProxies = false from rfl]
  simp only [Bool.false_eq_true, if_false]

/-- C7 at the spec's round-trip scenario: two servers at keycount `5000`
under `kBUCKET_SIZE = 1000`, `KEYS_SANITY_MIN = 1000`,
`KEYS_DAILY_JITTER = 100` yield threshold `4900` and both IPs. -/
theorem c7_uniform_witness :
    selectorGo cfgSelA qEmpty snapUniform =
      SelResult.valid ["1.1.1.1", "2.2.2.2"] 4900 := by
  have h := c7_uniform cfgSelA snapUniform 5000 (by decide) (by decide) (by decide)
    (by decide) (by decide) (by decide)
  rw [h]
  rfl

theorem plStep_keep (bks : List (Int × List Int)) (o : List Int) :
    ∀ (b : Int) (m : Nat),
      (∀ k ∈ o, ((alGet bks k).getD []).length ≤ m) →
      o.foldl (plStep bks) (b, m) = (b, m) := by
  induction o with
  | nil => intro b m _; rfl
  | cons a o ih =>
      intro b m h
      have ha := h a (by simp)
      simp only [List.foldl_cons, plStep]
      rw [if_neg (by omega)]
      exact ih b m (fun k hk => h k (by simp [hk]))

theorem plStep_find (bks : List (Int × List Int)) (kst : Int) :
    ∀ (o : List Int) (acc : Int × Nat),
      kst ∈ o →
      (∀ k ∈ o, k = kst ∨
        ((alGet bks k).getD []).length < ((alGet bks kst).getD []).length) →
      acc.2 < ((alGet bks kst).getD []).length →
      o.foldl (plStep bks) acc = (kst, ((alGet bks kst).getD []).length) := by
  intro o
  induction o with
  | nil =>
      intro acc hmem
      simp at hmem
  | cons a o ih =>
      intro acc hmem hlt hacc
      by_cases ha : a = kst
      · subst ha
        simp only [List.foldl_cons, plStep]
        rw [if_pos (by omega)]
        apply plStep_keep
        intro k hk
        rcases hlt k (by simp [hk]) with h | h
        · subst h
          exact le_refl _
        · exact le_of_lt h
      · have hmem2 : kst ∈ o := by
          rcases List.mem_cons.mp hmem with h | h
          · exact absurd h.symm ha
          · exact h
        have hlt2 : ∀ k ∈ o, k = kst ∨
            ((alGet bks k).getD []).length < ((alGet bks kst).getD []).length :=
          fun k hk => hlt k (by simp [hk])
        have halt : ((alGet bks a).getD []).length < ((alGet bks kst).getD []).length := by
          rcases hlt a (by simp) with h | h
          · exact absurd h ha
          · exact h
        simp only [List.foldl_cons, plStep]
        by_cases hgt : ((alGet bks a).getD []).length > acc.2
        · rw [if_pos hgt]
          exact ih (a, ((alGet bks a).getD []).length) hmem2 hlt2 halt
        · rw [if_neg hgt]
          exact ih acc hmem2 hlt2 hacc

theorem pickLargest_perm_unique (bks : List (Int × List Int)) (kst : Int)
    (o : List Int) (hperm : o.Perm (alKeys bks)) (hk : kst ∈ alKeys bks)
    (hpos : 0 < ((alGet bks kst).getD []).length)
    (huniq : ∀ k ∈ alKeys bks, k ≠ kst →
      ((alGet bks k).getD []).length < ((alGet bks kst).getD []).length) :
    pickLargest bks o = (kst, ((alGet bks kst).getD []).length) := by
  unfold pickLargest
  apply plStep_find bks kst o (0, 0) (hperm.mem_iff.mpr hk) ?_ hpos
  intro k hko
  by_cases hkk : k = kst
  · exact Or.inl hkk
  · exact Or.inr (huniq k (hperm.mem_iff.mp hko) hkk)

/-- C2 (amended): the selector is deterministic whenever the largest
keycount bucket is attained uniquely — any two iteration orders of the
bucket keys (any two permutations of them) give the same response.  When
two buckets tie for the largest member count the outcome depends on the
Go map iteration order, which is deliberately randomized. -/
theorem c2_amended (cfg : SelConfig) (q : Query) (P : PersistedState)
    (o1 o2 : List Int) (kst : Int)
    (h1 : o1.Perm (alKeys (selBuckets cfg (selPass cfg q P))))
    (h2 : o2.Perm (alKeys (selBuckets cfg (selPass cfg q P))))
    (hk : kst ∈ alKeys (selBuckets cfg (selPass cfg q P)))
    (hpos : 0 < ((alGet (selBuckets cfg (selPass cfg q P)) kst).getD []).length)
    (huniq : ∀ k ∈ alKeys (selBuckets cfg (selPass cfg q P)), k ≠ kst →
      ((alGet (selBuckets cfg (selPass cfg q P)) k).getD []).length <
        ((alGet (selBuckets cfg (selPass cfg q P)) kst).getD []).length) :
    selectorWithOrder cfg q P o1 = selectorWithOrder cfg q P o2 := by
  have e1 := pickLargest_perm_unique (selBuckets cfg (selPass cfg q P)) kst o1 h1 hk hpos huniq
  have e2 := pickLargest_perm_unique (selBuckets cfg (selPass cfg q P)) kst o2 h2 hk hpos huniq
  have he : pickLargest (selBuckets cfg (selPass cfg q P)) o1 =
      pickLargest (selBuckets cfg (selPass cfg q P)) o2 := e1.trans e2.symm
  simp only [selectorWithOrder, selSecondMean, selThreshold, selSecondSd, selVals,
    selFirstIps, selFirstIpsAll, selInB, selBndMin, selBndMax, selFpSd, selFpMean,
    selModeList, selAfter1010, selAfterVersion, selAfterCountries]
  simp only [he]

/-- C2 (counterexample): with buckets `1 ↦ [1000]` and `3 ↦ [3000]` tied
at one member each, the two iteration orders of the same key set give
different responses — `["1.1.1.1"]` at threshold `900` versus
`["2.2.2.2"]` at threshold `2900` — so the selector is not deterministic
under a bucket tie. -/
theorem c2_counterexample :
    List.Perm [1, 3] (alKeys (selBuckets cfgSelA (selPass cfgSelA qEmpty snapTie))) ∧
    List.Perm [3, 1] (alKeys (selBuckets cfgSelA (selPass cfgSelA qEmpty snapTie))) ∧
    selectorWithOrder cfgSelA qEmpty snapTie [1, 3] = .valid ["1.1.1.1"] 900 ∧
    selectorWithOrder cfgSelA qEmpty snapTie [3, 1] = .valid ["2.2.2.2"] 2900 ∧
    selectorWithOrder cfgSelA qEmpty snapTie [1, 3] ≠
      selectorWithOrder cfgSelA qEmpty snapTie [3, 1] :=
  ⟨by decide, by decide, by decide, by decide, by decide⟩

/-- C2 (amended) at a concrete snapshot whose largest bucket (two members
in bucket `1`) is unique: both iteration orders agree. -/
theorem c2_amended_witness :
    selectorWithOrder cfgSelA qEmpty snapUniq [1, 3] =
      selectorWithOrder cfgSelA qEmpty snapUniq [3, 1] :=
  c2_amended cfgSelA qEmpty snapUniq [1, 3] [3, 1] 1 (by decide) (by decide)
    (by decide) (by decide) (by decide)

/-- C6 (counterexample): in `snapKey1` the server `c.x` has keycount `1`
(so `keycount ≥ 1`), its count lies within the first-pass 5σ bounds and it
does not run version `1.0.10`, yet its IP `3.3.3.3` is missing from the
response: the eligibility pass drops every server with `keycount ≤ 1`
before any bound or threshold is consulted. -/
theorem c6_counterexample :
    selectorGo cfgSelB qOv1 snapKey1 = SelResult.valid ["1.1.1.1", "2.2.2.2"] 1 ∧
    alGet snapKey1.HostMap "c.x" = some (mkNode "c.x" 1 ["3.3.3.3"]) ∧
    (1 : Int) ≥ 1 ∧
    selBndMin cfgSelB (selPass cfgSelB qOv1 snapKey1)
      (alKeys (selBuckets cfgSelB (selPass cfgSelB qOv1 snapKey1))) ≤ 1 ∧
    (1 : Int) ≤ selBndMax cfgSelB (selPass cfgSelB qOv1 snapKey1)
      (alKeys (selBuckets cfgSelB (selPass cfgSelB qOv1 snapKey1))) ∧
    (mkNode "c.x" 1 ["3.3.3.3"]).Version ≠ "1.0.10" ∧
    "3.3.3.3" ∉ (["1.1.1.1", "2.2.2.2"] : List String) :=
  ⟨by decide, by decide, by decide, by decide, by decide, by decide, by decide⟩

/-- C6 (amended) at `snapKey1`: the returned IP `1.1.1.1` indeed carries a
recorded keycount within the first-pass bounds and is not `1.0.10`-skipped. -/
theorem c6_amended_witness :
    (∃ c, alGet (selPass cfgSelB qOv1 snapKey1).ipsAll "1.1.1.1" = some c ∧
        selBndMin cfgSelB (selPass cfgSelB qOv1 snapKey1)
          (alKeys (selBuckets cfgSelB (selPass cfgSelB qOv1 snapKey1))) ≤ c ∧
        c ≤ selBndMax cfgSelB (selPass cfgSelB qOv1 snapKey1)
          (alKeys (selBuckets cfgSelB (selPass cfgSelB qOv1 snapKey1)))) ∧
      "1.1.1.1" ∉ (selPass cfgSelB qOv1 snapKey1).skip1010 :=
  ((c6_amended cfgSelB snapKey1 ["1.1.1.1", "2.2.2.2"] 1 (by decide)).2 "1.1.1.1").mp
    (by decide)
